import Mathlib

/-!
# A shallow embedding of `vector.c`

The embedding follows `src/vector.c` function by function.

* `size_t` values are natural numbers; every arithmetic operation of the
  source that can leave the range of `size_t` is reduced modulo `SIZE_MOD`
  (64-bit `size_t`).
* The build that is embedded is the one with contract assertions compiled out
  (`NDEBUG`), without `VECTOR_NO_SHRINK` and without `__STDC_LIB_EXT1__`
  (with it the file does not compile: the `memcpy_s` branch calls
  `vector_byte_size` with two arguments).
* Memory is a block/offset model: the `data` field is either `NULL` or
  designates one live block, whose bytes are carried along.  An access outside
  the block, or through a pointer that does not point into the block, is
  undefined behaviour; an operation that runs into it yields `none`.
* `malloc` is an oracle (`Alloc`): it may fail, and the bytes of a fresh block
  are arbitrary.  Every operation of the source calls `malloc` at most once.
* The constants of the missing header `vector.h` are the fields of `Config`.
-/

namespace VectorC

/-! ## Machine integers -/

/-- Number of values of the type `size_t`. -/
abbrev SIZE_MOD : Nat := 18446744073709551616

/-- Reduction of an arithmetic result into the range of `size_t`. -/
def wrap (n : Nat) : Nat := n % SIZE_MOD

/-- Subtraction `a - b` of two `size_t` values. -/
def wsub (a b : Nat) : Nat := wrap (a + (SIZE_MOD - wrap b))

/-! ## The constants of `vector.h` -/

/-- Modelled from the spec: the header `vector.h` is missing, its tuning
constants are taken as parameters.  `VECTOR_SHRINK_THRESHOLD` is the fraction
`shrink_num / shrink_den`; a product with it is exact. -/
structure Config where
  VECTOR_MINIMUM_CAPACITY : Nat
  VECTOR_GROWTH_FACTOR : Nat
  shrink_num : Nat
  shrink_den : Nat
deriving DecidableEq, Repr

/-- Modelled from the spec: the example values of the spec (minimum capacity
4, growth factor 2, shrink threshold a quarter). -/
def spec_config : Config :=
  { VECTOR_MINIMUM_CAPACITY := 4, VECTOR_GROWTH_FACTOR := 2, shrink_num := 1, shrink_den := 4 }

/-- Modelled from the spec: `VECTOR_SUCCESS` of the missing header. -/
def VECTOR_SUCCESS : Int := 0

/-- Modelled from the spec: `VECTOR_ERROR` of the missing header
(`vector_resize` compares the same result with `-1`). -/
def VECTOR_ERROR : Int := -1

/-! ## Memory -/

/-- A value of type `void*`: `addr k` is the pointer with integer value `k`
that points into no live block (`addr 0` is `NULL`), `slot off` points `off`
bytes into the block of the vector. -/
inductive Pointer where
  | addr (k : Nat)
  | slot (off : Nat)
deriving DecidableEq, Repr

/-- The null pointer. -/
def NULL : Pointer := Pointer.addr 0

/-- Pointer arithmetic `p + n` on a byte pointer. -/
def Pointer.add (p : Pointer) (n : Nat) : Pointer :=
  match p with
  | Pointer.addr k => Pointer.addr (wrap (k + n))
  | Pointer.slot off => Pointer.slot (wrap (off + n))

/-- The `n` bytes at offset `off` of a block; `none` when they do not all lie
inside the block. -/
def load (blk : List Nat) (off n : Nat) : Option (List Nat) :=
  if off + n ≤ blk.length then some ((blk.drop off).take n) else none

/-- The block after `src` has been written at offset `off`; `none` when the
written range does not lie inside the block. -/
def store (blk : List Nat) (off : Nat) (src : List Nat) : Option (List Nat) :=
  if off + src.length ≤ blk.length then
    some (blk.take off ++ src ++ blk.drop (off + src.length))
  else none

/-- The allocator oracle of one call: whether `malloc` fails, and the bytes a
fresh block holds. -/
structure Alloc where
  fails : Bool
  junk : Nat → Nat

/-- The call `malloc(n)`: `none` is `NULL`, otherwise a fresh block of `n` bytes. -/
def malloc (a : Alloc) (n : Nat) : Option (List Nat) :=
  if a.fails then none else some ((List.range n).map a.junk)

/-! ## The vector -/

/-- The struct `Vector`.  The field `data` is `none` for `NULL`, and otherwise
holds the bytes of the block it points to. -/
structure Vector where
  size : Nat
  capacity : Nat
  element_size : Nat
  data : Option (List Nat)
deriving DecidableEq, Repr

/-- What a call leaves behind: the returned `int`, the vector, and the byte
counts of the `malloc` calls made, in order. -/
structure Outcome where
  ret : Int
  vector : Vector
  mallocs : List Nat
deriving DecidableEq, Repr

/-- The pointer value stored in the field `data`. -/
def Vector.data_ptr (v : Vector) : Pointer :=
  match v.data with
  | none => NULL
  | some _ => Pointer.slot 0

/-- Read of `n` bytes through `p`. -/
def Vector.read (v : Vector) (p : Pointer) (n : Nat) : Option (List Nat) :=
  match p, v.data with
  | Pointer.slot off, some blk => load blk off n
  | _, _ => none

/-- Write of the bytes `src` through `p`. -/
def Vector.write (v : Vector) (p : Pointer) (src : List Nat) : Option Vector :=
  match p, v.data with
  | Pointer.slot off, some blk => (store blk off src).map (fun b => { v with data := some b })
  | _, _ => none

/-- The call `memcpy(p, element, n)` into the block of the vector, from a
caller's buffer `element` (which has to hold `n` bytes). -/
def Vector.memcpy_in (v : Vector) (p : Pointer) (element : Option (List Nat)) (n : Nat) :
    Option Vector :=
  match element with
  | none => none
  | some x => if n ≤ x.length then v.write p (x.take n) else none

/-- The call `memmove(dst, src, n)` inside the block of the vector. -/
def Vector.memmove (v : Vector) (dst src : Pointer) (n : Nat) : Option Vector :=
  match v.read src n with
  | none => none
  | some bytes => v.write dst bytes

/-! ## Information -/

/-- Source: `vector_is_initialized`. -/
def vector_is_initialized (v : Vector) : Bool := v.data.isSome

/-- Source: `vector_byte_size`. -/
def vector_byte_size (v : Vector) : Nat := wrap (v.size * v.element_size)

/-- Source: `vector_free_space`. -/
def vector_free_space (v : Vector) : Nat := wsub v.capacity v.size

/-- Source: `vector_is_empty`. -/
def vector_is_empty (v : Vector) : Bool := decide (v.size = 0)

/-! ## Private functions -/

/-- Source: `_vector_should_grow`. -/
def _vector_should_grow (v : Vector) : Bool := decide (v.size = v.capacity)

/-- Source: `_vector_should_shrink`, the comparison
`size == capacity * VECTOR_SHRINK_THRESHOLD`. -/
def _vector_should_shrink (cfg : Config) (v : Vector) : Bool :=
  decide (v.size * cfg.shrink_den = v.capacity * cfg.shrink_num)

/-- Source: `_vector_free_bytes`. -/
def _vector_free_bytes (v : Vector) : Nat := wrap (vector_free_space v * v.element_size)

/-- Source: `_vector_offset`. -/
def _vector_offset (v : Vector) (index : Nat) : Pointer :=
  v.data_ptr.add (wrap (index * v.element_size))

/-- Source: `_vector_assign`. -/
def _vector_assign (v : Vector) (index : Nat) (element : Option (List Nat)) : Option Vector :=
  v.memcpy_in (_vector_offset v index) element v.element_size

/-- Source: `_vector_move_right` (the `memmove` branch). -/
def _vector_move_right (v : Vector) (index : Nat) (offset : Pointer) : Option (Int × Vector) :=
  let elements_in_bytes := wrap (wsub v.size index * v.element_size)
  match v.memmove (offset.add v.element_size) offset elements_in_bytes with
  | none => none
  | some v1 => some (VECTOR_SUCCESS, v1)

/-- Source: `_vector_move_left`. -/
def _vector_move_left (v : Vector) (index : Nat) : Option Vector :=
  let offset := _vector_offset v index
  let right_elements_in_bytes := wrap (wsub (wsub v.size index) 1 * v.element_size)
  v.memmove offset (offset.add v.element_size) right_elements_in_bytes

/-- Source: `_vector_reallocate`, from the computation of
`new_capacity_in_bytes` on (the part after the clamp of `new_capacity`). -/
def reallocate_to (a : Alloc) (v : Vector) (new_capacity : Nat) : Option Outcome :=
  let new_capacity_in_bytes := wrap (new_capacity * v.element_size)
  let old := v.data
  match malloc a new_capacity_in_bytes with
  | none => some ⟨VECTOR_ERROR, { v with data := none }, [new_capacity_in_bytes]⟩
  | some fresh =>
    match old with
    | none => none
    | some old_bytes =>
      match load old_bytes 0 (vector_byte_size v) with
      | none => none
      | some bytes =>
        match store fresh 0 bytes with
        | none => none
        | some blk =>
          some ⟨VECTOR_SUCCESS, { v with data := some blk, capacity := new_capacity },
            [new_capacity_in_bytes]⟩

/-- Source: `_vector_reallocate`. -/
def _vector_reallocate (cfg : Config) (a : Alloc) (v : Vector) (new_capacity : Nat) :
    Option Outcome :=
  if new_capacity < cfg.VECTOR_MINIMUM_CAPACITY then
    if v.capacity > cfg.VECTOR_MINIMUM_CAPACITY then
      reallocate_to a v cfg.VECTOR_MINIMUM_CAPACITY
    else
      some ⟨VECTOR_SUCCESS, v, []⟩
  else reallocate_to a v new_capacity

/-- Source: `_vector_adjust_capacity`. -/
def _vector_adjust_capacity (cfg : Config) (a : Alloc) (v : Vector) : Option Outcome :=
  _vector_reallocate cfg a v (wrap (v.size * cfg.VECTOR_GROWTH_FACTOR))

/-! ## Lifecycle -/

/-- Source: `vector_setup`.  `MAX` is the macro of the missing header. -/
def vector_setup (cfg : Config) (a : Alloc) (v : Vector) (capacity element_size : Nat) :
    Option Outcome :=
  if vector_is_initialized v then some ⟨VECTOR_ERROR, v, []⟩
  else
    let bytes := wrap (capacity * element_size)
    let d := malloc a bytes
    some ⟨if d.isSome then VECTOR_SUCCESS else VECTOR_ERROR,
      { size := 0, capacity := max cfg.VECTOR_MINIMUM_CAPACITY capacity,
        element_size := element_size, data := d },
      [bytes]⟩

/-- Source: `vector_destroy`.  The flag `live` tells whether the block that
`data` points to is still allocated.  The call `free(vector->data)` releases
the block and leaves the struct as it is; a `free` of a block that has been
released already is undefined behaviour.  The result is the outcome together
with the flag after the call. -/
def vector_destroy (v : Vector) (live : Bool) : Option (Outcome × Bool) :=
  if !vector_is_initialized v then some (⟨VECTOR_ERROR, v, []⟩, live)
  else if live then some (⟨VECTOR_SUCCESS, v, []⟩, false)
  else none

/-! ## Insertion -/

/-- Source: `vector_push_back`, lines 47 to 51 (store, increment, return). -/
def push_back_store (v : Vector) (element : Option (List Nat)) (log : List Nat) :
    Option Outcome :=
  match _vector_assign v v.size element with
  | none => none
  | some v1 => some ⟨VECTOR_SUCCESS, { v1 with size := wrap (v1.size + 1) }, log⟩

/-- Source: `vector_push_back`. -/
def vector_push_back (cfg : Config) (a : Alloc) (v : Vector) (element : Option (List Nat)) :
    Option Outcome :=
  if _vector_should_grow v then
    match _vector_adjust_capacity cfg a v with
    | none => none
    | some r =>
      if r.ret = VECTOR_ERROR then some ⟨VECTOR_ERROR, r.vector, r.mallocs⟩
      else push_back_store r.vector element r.mallocs
  else push_back_store v element []

/-- Source: `vector_insert`, lines 76 to 86 (shift, store, increment, return). -/
def insert_store (v : Vector) (index : Nat) (element : Option (List Nat)) (log : List Nat) :
    Option Outcome :=
  let offset := _vector_offset v index
  match _vector_move_right v index offset with
  | none => none
  | some (moved, v1) =>
    if moved = VECTOR_ERROR then some ⟨VECTOR_ERROR, v1, log⟩
    else
      match v1.memcpy_in offset element v1.element_size with
      | none => none
      | some v2 => some ⟨VECTOR_SUCCESS, { v2 with size := wrap (v2.size + 1) }, log⟩

/-- Source: `vector_insert`. -/
def vector_insert (cfg : Config) (a : Alloc) (v : Vector) (index : Nat)
    (element : Option (List Nat)) : Option Outcome :=
  if element = none then some ⟨VECTOR_ERROR, v, []⟩
  else if v.element_size = 0 then some ⟨VECTOR_ERROR, v, []⟩
  else if index > v.size then some ⟨VECTOR_ERROR, v, []⟩
  else if _vector_should_grow v then
    match _vector_adjust_capacity cfg a v with
    | none => none
    | some r =>
      if r.ret = VECTOR_ERROR then some ⟨VECTOR_ERROR, r.vector, r.mallocs⟩
      else insert_store r.vector index element r.mallocs
  else insert_store v index element []

/-- Source: `vector_push_front`. -/
def vector_push_front (cfg : Config) (a : Alloc) (v : Vector) (element : Option (List Nat)) :
    Option Outcome :=
  vector_insert cfg a v 0 element

/-- Source: `vector_assign`. -/
def vector_assign (v : Vector) (index : Nat) (element : Option (List Nat)) : Option Outcome :=
  if element = none then some ⟨VECTOR_ERROR, v, []⟩
  else if v.element_size = 0 then some ⟨VECTOR_ERROR, v, []⟩
  else if index ≥ v.size then some ⟨VECTOR_ERROR, v, []⟩
  else
    match _vector_assign v index element with
    | none => none
    | some v1 => some ⟨VECTOR_SUCCESS, v1, []⟩

/-! ## Deletion -/

/-- Source: `vector_pop_back`.  The result of `_vector_adjust_capacity` is
dropped. -/
def vector_pop_back (cfg : Config) (a : Alloc) (v : Vector) : Option Outcome :=
  if v.element_size = 0 then some ⟨VECTOR_ERROR, v, []⟩
  else
    let v1 := { v with size := wsub v.size 1 }
    if _vector_should_shrink cfg v1 then
      match _vector_adjust_capacity cfg a v1 with
      | none => none
      | some r => some ⟨VECTOR_SUCCESS, r.vector, r.mallocs⟩
    else some ⟨VECTOR_SUCCESS, v1, []⟩

/-- Source: `vector_remove`.  The shrink test is `--size == capacity / 4`;
the result of `_vector_adjust_capacity` is dropped. -/
def vector_remove (cfg : Config) (a : Alloc) (v : Vector) (index : Nat) : Option Outcome :=
  if v.element_size = 0 then some ⟨VECTOR_ERROR, v, []⟩
  else if index ≥ v.size then some ⟨VECTOR_ERROR, v, []⟩
  else
    match _vector_move_left v index with
    | none => none
    | some v1 =>
      let v2 := { v1 with size := wsub v1.size 1 }
      if v2.size = v2.capacity / 4 then
        match _vector_adjust_capacity cfg a v2 with
        | none => none
        | some r => some ⟨VECTOR_SUCCESS, r.vector, r.mallocs⟩
      else some ⟨VECTOR_SUCCESS, v2, []⟩

/-- Source: `vector_pop_front`. -/
def vector_pop_front (cfg : Config) (a : Alloc) (v : Vector) : Option Outcome :=
  vector_remove cfg a v 0

/-! ## Memory management -/

/-- Source: `vector_resize`, the tests `new_size > capacity` and
`new_size <= size * VECTOR_SHRINK_THRESHOLD`. -/
def vector_resize (cfg : Config) (a : Alloc) (v : Vector) (new_size : Nat) : Option Outcome :=
  if new_size > v.capacity ∨ new_size * cfg.shrink_den ≤ v.size * cfg.shrink_num then
    match _vector_reallocate cfg a v (wrap (new_size * cfg.VECTOR_GROWTH_FACTOR)) with
    | none => none
    | some r =>
      if r.ret = -1 then some ⟨VECTOR_ERROR, r.vector, r.mallocs⟩
      else some ⟨VECTOR_SUCCESS, { r.vector with size := new_size }, r.mallocs⟩
  else some ⟨VECTOR_SUCCESS, { v with size := new_size }, []⟩

/-- Source: `vector_clear`. -/
def vector_clear (cfg : Config) (a : Alloc) (v : Vector) : Option Outcome :=
  vector_resize cfg a v 0

/-- Source: `vector_reserve`. -/
def vector_reserve (cfg : Config) (a : Alloc) (v : Vector) (minimum_capacity : Nat) :
    Option Outcome :=
  if minimum_capacity > v.capacity then
    match _vector_reallocate cfg a v minimum_capacity with
    | none => none
    | some r =>
      if r.ret = VECTOR_ERROR then some ⟨VECTOR_ERROR, r.vector, r.mallocs⟩
      else some ⟨VECTOR_SUCCESS, r.vector, r.mallocs⟩
  else some ⟨VECTOR_SUCCESS, v, []⟩

/-- Source: `vector_shrink_to_fit`. -/
def vector_shrink_to_fit (cfg : Config) (a : Alloc) (v : Vector) : Option Outcome :=
  _vector_reallocate cfg a v v.size

/-! ## Lookup -/

/-- Source: `vector_get`. -/
def vector_get (v : Vector) (index : Nat) : Pointer :=
  if v.element_size = 0 then NULL
  else if index ≥ v.size then NULL
  else _vector_offset v index

/-- Source: `vector_front`. -/
def vector_front (v : Vector) : Pointer := vector_get v 0

/-- Source: `vector_back`. -/
def vector_back (v : Vector) : Pointer := vector_get v (wsub v.size 1)

/-- The element a lookup result refers to: the `element_size` bytes behind
the pointer (`none` when the pointer cannot be dereferenced). -/
def deref (v : Vector) (p : Pointer) : Option (List Nat) := v.read p v.element_size

/-- The element that `vector_get(index)` refers to. -/
def element_at (v : Vector) (index : Nat) : Option (List Nat) := deref v (vector_get v index)

/-- The vector is initialized and owns its elements: `data` designates a block
of fewer than `SIZE_MOD` bytes in which the `size` live elements lie. -/
def Vector.holds_elements (v : Vector) : Prop :=
  match v.data with
  | none => False
  | some blk => blk.length < SIZE_MOD ∧ v.size * v.element_size ≤ blk.length

instance (v : Vector) : Decidable v.holds_elements := by
  unfold Vector.holds_elements
  cases v.data <;> exact inferInstance

/-! ## Iterators -/

/-- The struct `Iterator`. -/
structure Iterator where
  pointer : Pointer
  element_size : Nat
deriving DecidableEq, Repr

/-- Pointer arithmetic `p - n` on a byte pointer. -/
def Pointer.sub (p : Pointer) (n : Nat) : Pointer :=
  match p with
  | Pointer.addr k => Pointer.addr (wsub k n)
  | Pointer.slot off => Pointer.slot (wsub off n)

/-- The comparison `p < q` of two pointers: by offset inside the block, by value
for two pointers outside it; the order of a pointer into the block and one
outside it is not determined (`none`). -/
def Pointer.before (p q : Pointer) : Option Bool :=
  match p, q with
  | Pointer.addr a, Pointer.addr b => some (decide (a < b))
  | Pointer.slot a, Pointer.slot b => some (decide (a < b))
  | _, _ => none

/-- Source: `vector_iterator`. -/
def vector_iterator (v : Vector) (index : Nat) : Iterator :=
  if index > v.size then ⟨NULL, 0⟩
  else if v.element_size = 0 then ⟨NULL, 0⟩
  else ⟨_vector_offset v index, v.element_size⟩

/-- Source: `vector_begin`. -/
def vector_begin (v : Vector) : Iterator := vector_iterator v 0

/-- Source: `vector_end`. -/
def vector_end (v : Vector) : Iterator := vector_iterator v v.size

/-- Source: `iterator_get`. -/
def iterator_get (it : Iterator) : Pointer := it.pointer

/-- Source: `iterator_increment`. -/
def iterator_increment (it : Iterator) : Iterator :=
  { it with pointer := it.pointer.add it.element_size }

/-- Source: `iterator_decrement`. -/
def iterator_decrement (it : Iterator) : Iterator :=
  { it with pointer := it.pointer.sub it.element_size }

/-- Source: `iterator_next`; the returned pointer and the iterator after the call. -/
def iterator_next (it : Iterator) : Pointer × Iterator := (it.pointer, iterator_increment it)

/-- Source: `iterator_previous`; the returned pointer and the iterator after the
call. -/
def iterator_previous (it : Iterator) : Pointer × Iterator :=
  (it.pointer, iterator_decrement it)

/-- Source: `iterator_equals`. -/
def iterator_equals (first second : Iterator) : Bool :=
  decide (first.pointer = second.pointer)

/-- Source: `iterator_is_before`. -/
def iterator_is_before (first second : Iterator) : Option Bool :=
  first.pointer.before second.pointer

/-- Source: `iterator_is_after`. -/
def iterator_is_after (first second : Iterator) : Option Bool :=
  second.pointer.before first.pointer

/-- The traversal `for (it = first; !iterator_equals(&it, &last);)` that takes
`iterator_next(&it)` in its body, run for at most `fuel` tests of the loop
condition: the pointers that `iterator_next` returned, or `none` when the loop
has not ended by then. -/
def traverse : Nat → Iterator → Iterator → Option (List Pointer)
  | 0, _, _ => none
  | fuel + 1, it, last =>
    if iterator_equals it last then some []
    else (traverse fuel (iterator_next it).2 last).map (fun ps => (iterator_next it).1 :: ps)

/-! ## Sequences of operations -/

/-- The public operations that work on a set-up vector. -/
inductive Op where
  | push_back (element : Option (List Nat))
  | push_front (element : Option (List Nat))
  | insert (index : Nat) (element : Option (List Nat))
  | assign (index : Nat) (element : Option (List Nat))
  | pop_back
  | pop_front
  | remove (index : Nat)
  | clear
  | resize (new_size : Nat)
  | reserve (minimum_capacity : Nat)
  | shrink_to_fit
deriving DecidableEq, Repr

/-- The `size_t` arguments of the operation are values of `size_t`. -/
def Op.args_in_range : Op → Prop
  | Op.insert index _ => index < SIZE_MOD
  | Op.assign index _ => index < SIZE_MOD
  | Op.remove index => index < SIZE_MOD
  | Op.resize new_size => new_size < SIZE_MOD
  | Op.reserve minimum_capacity => minimum_capacity < SIZE_MOD
  | _ => True

instance (op : Op) : Decidable op.args_in_range := by
  cases op <;> unfold Op.args_in_range <;> exact inferInstance

/-- One call of a public operation. -/
def Op.run (cfg : Config) (a : Alloc) (v : Vector) : Op → Option Outcome
  | Op.push_back element => vector_push_back cfg a v element
  | Op.push_front element => vector_push_front cfg a v element
  | Op.insert index element => vector_insert cfg a v index element
  | Op.assign index element => vector_assign v index element
  | Op.pop_back => vector_pop_back cfg a v
  | Op.pop_front => vector_pop_front cfg a v
  | Op.remove index => vector_remove cfg a v index
  | Op.clear => vector_clear cfg a v
  | Op.resize new_size => vector_resize cfg a v new_size
  | Op.reserve minimum_capacity => vector_reserve cfg a v minimum_capacity
  | Op.shrink_to_fit => vector_shrink_to_fit cfg a v

/-- The vector states that a successful `vector_setup` followed by calls of
public operations leads to. -/
inductive Reachable (cfg : Config) : Vector → Prop where
  | setup (a : Alloc) (v0 : Vector) (capacity element_size : Nat) (r : Outcome) :
      capacity < SIZE_MOD → element_size < SIZE_MOD →
      vector_setup cfg a v0 capacity element_size = some r → r.ret = VECTOR_SUCCESS →
      Reachable cfg r.vector
  | step (a : Alloc) (v : Vector) (op : Op) (r : Outcome) :
      Reachable cfg v → op.args_in_range → op.run cfg a v = some r → Reachable cfg r.vector

/-- The calls `vector_push_back(x)` for the elements of a list in turn, each
with its own allocator oracle; `none` as soon as one call does not return
`VECTOR_SUCCESS`. -/
def push_back_all (cfg : Config) (v : Vector) : List (Alloc × List Nat) → Option Vector
  | [] => some v
  | (a, x) :: rest =>
    match vector_push_back cfg a v (some x) with
    | none => none
    | some r => if r.ret = VECTOR_SUCCESS then push_back_all cfg r.vector rest else none

/-- Two vectors agree on everything but the bytes of their block, and their
blocks have the same length. -/
def same_frame (v v1 : Vector) : Prop :=
  v1.size = v.size ∧ v1.capacity = v.capacity ∧ v1.element_size = v.element_size ∧
    ∃ blk blk1, v.data = some blk ∧ v1.data = some blk1 ∧ blk1.length = blk.length

/-- The data-model invariant of the vector: it is initialized, its block has
`capacity * element_size` bytes (a `size_t` value), `size ≤ capacity` and
`capacity ≥ VECTOR_MINIMUM_CAPACITY`. -/
def Vector.well_formed (cfg : Config) (v : Vector) : Prop :=
  match v.data with
  | none => False
  | some blk =>
    blk.length = v.capacity * v.element_size ∧ blk.length < SIZE_MOD ∧
      v.size ≤ v.capacity ∧ cfg.VECTOR_MINIMUM_CAPACITY ≤ v.capacity

instance (cfg : Config) (v : Vector) : Decidable (v.well_formed cfg) := by
  unfold Vector.well_formed
  cases v.data <;> exact inferInstance

/-! ## Memory lemmas -/

theorem wrap_of_lt {n : Nat} (h : n < SIZE_MOD) : wrap n = n := Nat.mod_eq_of_lt h

theorem wrap_lt (n : Nat) : wrap n < SIZE_MOD := Nat.mod_lt _ (by decide)

theorem wrap_le (n : Nat) : wrap n ≤ n := Nat.mod_le _ _

theorem wsub_of_le {a b : Nat} (hb : b ≤ a) (ha : a < SIZE_MOD) : wsub a b = a - b := by
  unfold wsub wrap SIZE_MOD
  unfold SIZE_MOD at ha
  omega

theorem getElem?_slice (blk : List Nat) (off n k : Nat) :
    ((blk.drop off).take n)[k]? = if k < n then blk[off + k]? else none := by
  rw [List.getElem?_take, List.getElem?_drop]

theorem getElem?_patch (blk src : List Nat) (off k : Nat) (h : off + src.length ≤ blk.length) :
    (blk.take off ++ src ++ blk.drop (off + src.length))[k]? =
      if k < off then blk[k]? else if k < off + src.length then src[k - off]? else blk[k]? := by
  have hlen : (blk.take off).length = off := by rw [List.length_take]; omega
  rw [List.append_assoc, List.getElem?_append, hlen]
  by_cases h1 : k < off
  · simp only [h1, if_true]
    rw [List.getElem?_take_of_lt h1]
  · simp only [h1, if_false]
    rw [List.getElem?_append]
    by_cases h2 : k < off + src.length
    · have h3 : k - off < src.length := by omega
      simp only [h2, h3, if_true]
    · have h3 : ¬ (k - off < src.length) := by omega
      simp only [h2, h3, if_false]
      rw [List.getElem?_drop]
      congr 1
      omega

theorem load_eq_some {blk : List Nat} {off n : Nat} {l : List Nat}
    (h : load blk off n = some l) : off + n ≤ blk.length ∧ l = (blk.drop off).take n := by
  unfold load at h
  split at h
  · exact ⟨by assumption, (Option.some.inj h).symm⟩
  · exact absurd h (by simp)

theorem load_of_le {blk : List Nat} {off n : Nat} (h : off + n ≤ blk.length) :
    load blk off n = some ((blk.drop off).take n) := by
  unfold load
  rw [if_pos h]

theorem length_of_load {blk : List Nat} {off n : Nat} {l : List Nat}
    (h : load blk off n = some l) : l.length = n := by
  obtain ⟨h1, h2⟩ := load_eq_some h
  rw [h2, List.length_take, List.length_drop]
  omega

theorem store_eq_some {blk src : List Nat} {off : Nat} {b : List Nat}
    (h : store blk off src = some b) :
    off + src.length ≤ blk.length ∧ b = blk.take off ++ src ++ blk.drop (off + src.length) := by
  unfold store at h
  split at h
  · exact ⟨by assumption, (Option.some.inj h).symm⟩
  · exact absurd h (by simp)

theorem length_of_store {blk src : List Nat} {off : Nat} {b : List Nat}
    (h : store blk off src = some b) : b.length = blk.length := by
  obtain ⟨h1, h2⟩ := store_eq_some h
  rw [h2]
  simp only [List.length_append, List.length_take, List.length_drop]
  omega

theorem getElem?_of_store {blk src : List Nat} {off : Nat} {b : List Nat}
    (h : store blk off src = some b) (k : Nat) :
    b[k]? = if k < off then blk[k]? else if k < off + src.length then src[k - off]? else blk[k]? := by
  obtain ⟨h1, h2⟩ := store_eq_some h
  rw [h2]
  exact getElem?_patch blk src off k h1

/-- A read of exactly the range that has just been written returns the written bytes. -/
theorem load_store_same {blk src : List Nat} {off : Nat} {b : List Nat}
    (h : store blk off src = some b) : load b off src.length = some src := by
  have hl := length_of_store h
  have h1 := (store_eq_some h).1
  rw [load_of_le (by omega)]
  congr 1
  apply List.ext_getElem?
  intro k
  rw [getElem?_slice, getElem?_of_store h]
  by_cases hk : k < src.length
  · have h2 : ¬ (off + k < off) := by omega
    have h3 : off + k < off + src.length := by omega
    simp only [hk, h2, h3, if_true, if_false]
    congr 1
    omega
  · simp only [hk, if_false]
    exact (List.getElem?_eq_none (by omega)).symm

/-- A read of a range disjoint from the written one is not affected by the write. -/
theorem load_store_disjoint {blk src : List Nat} {off : Nat} {b : List Nat}
    (h : store blk off src = some b) (o n : Nat) (hd : o + n ≤ off ∨ off + src.length ≤ o) :
    load b o n = load blk o n := by
  have hl := length_of_store h
  unfold load
  rw [hl]
  by_cases hb : o + n ≤ blk.length
  · rw [if_pos hb, if_pos hb]
    congr 1
    apply List.ext_getElem?
    intro k
    rw [getElem?_slice, getElem?_slice, getElem?_of_store h]
    by_cases hk : k < n
    · simp only [hk, if_true]
      rcases hd with hd | hd
      · rw [if_pos (by omega)]
      · rw [if_neg (by omega), if_neg (by omega)]
    · simp only [hk, if_false]
  · rw [if_neg hb, if_neg hb]

/-- A read inside the written range returns the matching part of the written bytes. -/
theorem load_store_inside {blk src : List Nat} {off : Nat} {b : List Nat}
    (h : store blk off src = some b) (o n : Nat) (h1 : off ≤ o) (h2 : o + n ≤ off + src.length) :
    load b o n = load src (o - off) n := by
  have hl := length_of_store h
  have h0 := (store_eq_some h).1
  rw [load_of_le (by omega), load_of_le (by omega)]
  congr 1
  apply List.ext_getElem?
  intro k
  rw [getElem?_slice, getElem?_slice, getElem?_of_store h]
  by_cases hk : k < n
  · simp only [hk, if_true]
    rw [if_neg (by omega), if_pos (by omega)]
    congr 1
    omega
  · simp only [hk, if_false]

/-- A read inside a range that was read before. -/
theorem load_load {blk l : List Nat} {off n : Nat}
    (h : load blk off n = some l) (o m : Nat) (hm : o + m ≤ n) :
    load l o m = load blk (off + o) m := by
  obtain ⟨h1, h2⟩ := load_eq_some h
  have hl := length_of_load h
  rw [load_of_le (by omega), load_of_le (by omega)]
  congr 1
  apply List.ext_getElem?
  intro k
  rw [getElem?_slice, getElem?_slice, h2, getElem?_slice]
  by_cases hk : k < m
  · simp only [hk, if_true]
    rw [if_pos (by omega)]
    congr 1
    omega
  · simp only [hk, if_false]

/-! ## Lookup lemmas -/

theorem holds_elements_iff {v : Vector} :
    v.holds_elements ↔
      ∃ blk, v.data = some blk ∧ blk.length < SIZE_MOD ∧ v.size * v.element_size ≤ blk.length := by
  unfold Vector.holds_elements
  cases hd : v.data with
  | none => simp
  | some blk => simp

theorem _vector_offset_eq {v : Vector} {blk : List Nat} (hd : v.data = some blk) {j : Nat}
    (hj : j * v.element_size < SIZE_MOD) : _vector_offset v j = Pointer.slot (j * v.element_size) := by
  unfold _vector_offset Vector.data_ptr
  rw [hd]
  simp only [Pointer.add]
  rw [wrap_of_lt hj, Nat.zero_add, wrap_of_lt hj]

theorem mul_le_of_lt_size {s e len j : Nat} (hs : s * e ≤ len) (hj : j < s) :
    j * e + e ≤ len := by
  have h1 : (j + 1) * e ≤ s * e := Nat.mul_le_mul_right e hj
  rw [Nat.add_mul, Nat.one_mul] at h1
  omega

theorem element_at_eq_load {v : Vector} {blk : List Nat} (hd : v.data = some blk)
    (hlen : blk.length < SIZE_MOD) (hs : v.size * v.element_size ≤ blk.length)
    (he : 0 < v.element_size) {j : Nat} (hj : j < v.size) :
    element_at v j = load blk (j * v.element_size) v.element_size := by
  have h1 := mul_le_of_lt_size hs hj
  unfold element_at deref vector_get
  rw [if_neg (by omega), if_neg (by omega), _vector_offset_eq hd (by omega)]
  unfold Vector.read
  rw [hd]

/-- Every live element of a vector that holds its elements can be read. -/
theorem element_at_isSome {v : Vector} (h : v.holds_elements) (he : 0 < v.element_size)
    {j : Nat} (hj : j < v.size) : (element_at v j).isSome = true := by
  obtain ⟨blk, hd, hlen, hs⟩ := holds_elements_iff.mp h
  rw [element_at_eq_load hd hlen hs he hj, load_of_le (mul_le_of_lt_size hs hj)]
  rfl

/-! ## Reallocation lemmas -/

theorem length_malloc {a : Alloc} {n : Nat} {fresh : List Nat} (h : malloc a n = some fresh) :
    fresh.length = n := by
  unfold malloc at h
  split at h
  · exact absurd h (by simp)
  · rw [← Option.some.inj h]
    simp

theorem malloc_eq_none {a : Alloc} {n : Nat} : malloc a n = none ↔ a.fails = true := by
  unfold malloc
  split <;> simp [*]

theorem success_ne_error : VECTOR_SUCCESS ≠ VECTOR_ERROR := by decide

/-- What a reallocation that returns `VECTOR_SUCCESS` has done. -/
theorem reallocate_to_success {a : Alloc} {v : Vector} {nc : Nat} {r : Outcome}
    (h : reallocate_to a v nc = some r) (hs : r.ret ≠ VECTOR_ERROR) :
    ∃ old blk, v.data = some old ∧ a.fails = false ∧
      r = ⟨VECTOR_SUCCESS, { v with data := some blk, capacity := nc },
        [wrap (nc * v.element_size)]⟩ ∧
      blk.length = wrap (nc * v.element_size) ∧
      wrap (v.size * v.element_size) ≤ old.length ∧
      wrap (v.size * v.element_size) ≤ blk.length ∧
      ∀ o n, o + n ≤ wrap (v.size * v.element_size) → load blk o n = load old o n := by
  unfold reallocate_to at h
  simp only at h
  cases hm : malloc a (wrap (nc * v.element_size)) with
  | none =>
    rw [hm] at h
    simp only at h
    rw [← Option.some.inj h] at hs
    exact absurd rfl hs
  | some fresh =>
    rw [hm] at h
    simp only at h
    cases hd : v.data with
    | none => rw [hd] at h; exact absurd h (by simp)
    | some old =>
      rw [hd] at h
      simp only at h
      cases hl : load old 0 (vector_byte_size v) with
      | none => rw [hl] at h; exact absurd h (by simp)
      | some bytes =>
        rw [hl] at h
        simp only at h
        cases hst : store fresh 0 bytes with
        | none => rw [hst] at h; exact absurd h (by simp)
        | some blk =>
          rw [hst] at h
          simp only at h
          have hbl : bytes.length = wrap (v.size * v.element_size) := length_of_load hl
          have hfl := length_malloc hm
          have hkl := length_of_store hst
          have h1 := (load_eq_some hl).1
          have h2 := (store_eq_some hst).1
          have hfa : a.fails = false := by
            cases hf : a.fails with
            | false => rfl
            | true => rw [malloc_eq_none.mpr hf] at hm; exact absurd hm (by simp)
          unfold vector_byte_size at h1 hl
          refine ⟨old, blk, rfl, hfa, (Option.some.inj h).symm, by omega, by omega, by omega, ?_⟩
          intro o n hon
          rw [load_store_inside hst o n (Nat.zero_le _) (by omega), Nat.sub_zero,
            load_load hl o n hon, Nat.zero_add]

theorem read_slot {v : Vector} {blk : List Nat} (hd : v.data = some blk) (off n : Nat) :
    v.read (Pointer.slot off) n = load blk off n := by
  unfold Vector.read
  rw [hd]

theorem write_slot {v : Vector} {blk : List Nat} (hd : v.data = some blk) (off : Nat)
    (src : List Nat) :
    v.write (Pointer.slot off) src =
      (store blk off src).map (fun b => { v with data := some b }) := by
  unfold Vector.write
  rw [hd]

/-- A reallocation that does not fail keeps the size, the element width and
the elements. -/
theorem _vector_reallocate_keeps {cfg : Config} {a : Alloc} {v : Vector} {nc : Nat} {r : Outcome}
    (hv : v.holds_elements) (h : _vector_reallocate cfg a v nc = some r)
    (hs : r.ret ≠ VECTOR_ERROR) :
    r.ret = VECTOR_SUCCESS ∧ r.vector.size = v.size ∧ r.vector.element_size = v.element_size ∧
      r.vector.holds_elements ∧
      (0 < v.element_size → ∀ j, j < v.size → element_at r.vector j = element_at v j) := by
  obtain ⟨old, hd, hlen, hsz⟩ := holds_elements_iff.mp hv
  have key : ∀ n, reallocate_to a v n = some r →
      r.ret = VECTOR_SUCCESS ∧ r.vector.size = v.size ∧
      r.vector.element_size = v.element_size ∧ r.vector.holds_elements ∧
      (0 < v.element_size → ∀ j, j < v.size → element_at r.vector j = element_at v j) := by
    intro n hn
    obtain ⟨old', blk, hd', _, hr, hbl, _, h2, h3⟩ := reallocate_to_success hn hs
    rw [hd] at hd'
    have hoo : old' = old := (Option.some.inj hd').symm
    subst hoo
    have hw : wrap (v.size * v.element_size) = v.size * v.element_size :=
      wrap_of_lt (by omega)
    rw [hw] at h2 h3
    have hbM : blk.length < SIZE_MOD := by rw [hbl]; exact wrap_lt _
    subst hr
    refine ⟨rfl, rfl, rfl, ?_, ?_⟩
    · exact holds_elements_iff.mpr ⟨blk, rfl, hbM, h2⟩
    · intro he j hj
      have e1 : element_at { v with data := some blk, capacity := n } j =
          load blk (j * v.element_size) v.element_size :=
        element_at_eq_load (v := { v with data := some blk, capacity := n }) rfl hbM h2 he hj
      rw [e1, element_at_eq_load hd hlen hsz he hj]
      exact h3 _ _ (mul_le_of_lt_size (Nat.le_refl _) hj)
  unfold _vector_reallocate at h
  split at h
  · split at h
    · exact key _ h
    · rw [← Option.some.inj h]
      exact ⟨rfl, rfl, rfl, hv, fun _ _ _ => rfl⟩
  · exact key _ h

theorem _vector_move_right_eq {v : Vector} {blk : List Nat} {i : Nat} (hd : v.data = some blk)
    (hlen : blk.length < SIZE_MOD) (hs : v.size * v.element_size ≤ blk.length)
    (he : 0 < v.element_size) (hi : i ≤ v.size) :
    _vector_move_right v i (Pointer.slot (i * v.element_size)) =
      match store blk (wrap (i * v.element_size + v.element_size))
          ((blk.drop (i * v.element_size)).take ((v.size - i) * v.element_size)) with
      | none => none
      | some b => some (VECTOR_SUCCESS, { v with data := some b }) := by
  have hA : i * v.element_size ≤ v.size * v.element_size := Nat.mul_le_mul_right _ hi
  have hsub : (v.size - i) * v.element_size = v.size * v.element_size - i * v.element_size :=
    Nat.sub_mul _ _ _
  have hsle : v.size ≤ v.size * v.element_size := Nat.le_mul_of_pos_right _ he
  unfold _vector_move_right Vector.memmove
  simp only [Pointer.add]
  rw [wsub_of_le hi (by omega), wrap_of_lt (by omega), read_slot hd,
    load_of_le (by omega)]
  simp only
  rw [write_slot hd]
  cases store blk (wrap (i * v.element_size + v.element_size))
    ((blk.drop (i * v.element_size)).take ((v.size - i) * v.element_size)) <;> rfl

/-- What the shift-and-store part of `vector_insert` does to the bytes. -/
theorem insert_store_spec {v : Vector} {blk : List Nat} {i : Nat} {x log : List Nat}
    {r : Outcome} (hd : v.data = some blk) (hlen : blk.length < SIZE_MOD)
    (hs : v.size * v.element_size ≤ blk.length) (he : 0 < v.element_size) (hi : i ≤ v.size)
    (h : insert_store v i (some x) log = some r) :
    ∃ blk2, r = ⟨VECTOR_SUCCESS, { v with size := v.size + 1, data := some blk2 }, log⟩ ∧
      blk2.length = blk.length ∧ (v.size + 1) * v.element_size ≤ blk.length ∧
      (∀ j, j < i → load blk2 (j * v.element_size) v.element_size =
        load blk (j * v.element_size) v.element_size) ∧
      load blk2 (i * v.element_size) v.element_size = some (x.take v.element_size) ∧
      (∀ j, i ≤ j → j < v.size → load blk2 ((j + 1) * v.element_size) v.element_size =
        load blk (j * v.element_size) v.element_size) := by
  have hA : i * v.element_size ≤ v.size * v.element_size := Nat.mul_le_mul_right _ hi
  have hsub : (v.size - i) * v.element_size = v.size * v.element_size - i * v.element_size :=
    Nat.sub_mul _ _ _
  have hsle : v.size ≤ v.size * v.element_size := Nat.le_mul_of_pos_right _ he
  have hS : (v.size + 1) * v.element_size = v.size * v.element_size + v.element_size := by
    rw [Nat.add_mul, Nat.one_mul]
  unfold insert_store at h
  simp only at h
  rw [_vector_offset_eq hd (by omega), _vector_move_right_eq hd hlen hs he hi] at h
  cases hst : store blk (wrap (i * v.element_size + v.element_size))
      ((blk.drop (i * v.element_size)).take ((v.size - i) * v.element_size)) with
  | none => rw [hst] at h; exact absurd h (by simp)
  | some blk1 =>
    rw [hst] at h
    simp only [if_neg success_ne_error] at h
    unfold Vector.memcpy_in at h
    simp only at h
    by_cases hx : v.element_size ≤ x.length
    · rw [if_pos hx, write_slot (v := { v with data := some blk1 }) rfl] at h
      cases hst2 : store blk1 (i * v.element_size) (x.take v.element_size) with
      | none => rw [hst2] at h; exact absurd h (by simp)
      | some blk2 =>
        rw [hst2] at h
        simp only [Option.map_some'] at h
        have hl1 := length_of_store hst
        have hl2 := length_of_store hst2
        have hxl : (x.take v.element_size).length = v.element_size := by
          rw [List.length_take]; omega
        have hb2 := (store_eq_some hst2).1
        rw [hxl] at hb2
        have hw : wrap (i * v.element_size + v.element_size) =
            i * v.element_size + v.element_size := wrap_of_lt (by omega)
        rw [hw] at hst
        have hsl : ((blk.drop (i * v.element_size)).take
            ((v.size - i) * v.element_size)).length = (v.size - i) * v.element_size := by
          rw [List.length_take, List.length_drop]; omega
        have hb1 := (store_eq_some hst).1
        rw [hsl] at hb1
        have hsz : wrap (v.size + 1) = v.size + 1 := wrap_of_lt (by omega)
        rw [hsz] at h
        refine ⟨blk2, (Option.some.inj h).symm, by omega, by omega, ?_, ?_, ?_⟩
        · intro j hj
          have hj1 := mul_le_of_lt_size (Nat.le_refl (i * v.element_size)) hj
          rw [load_store_disjoint hst2 _ _ (Or.inl hj1),
            load_store_disjoint hst _ _ (Or.inl (by omega))]
        · have := load_store_same hst2
          rw [hxl] at this
          exact this
        · intro j hij hjs
          have hj1 : i * v.element_size ≤ j * v.element_size := Nat.mul_le_mul_right _ hij
          have hj2 := mul_le_of_lt_size (Nat.le_refl (v.size * v.element_size)) hjs
          have hj3 : (j + 1) * v.element_size = j * v.element_size + v.element_size := by
            rw [Nat.add_mul, Nat.one_mul]
          rw [hj3, load_store_disjoint hst2 _ _ (Or.inr (by omega)),
            load_store_inside hst _ _ (by omega) (by omega),
            load_load (load_of_le (by omega)) _ _ (by omega)]
          congr 1
          omega
    · rw [if_neg hx] at h
      exact absurd h (by simp)

/-- The shift-and-store part of `vector_insert` on the level of elements. -/
theorem insert_store_elements {v : Vector} {i : Nat} {x log : List Nat} {r : Outcome}
    (hv : v.holds_elements) (he : 0 < v.element_size) (hi : i ≤ v.size)
    (h : insert_store v i (some x) log = some r) :
    r.ret = VECTOR_SUCCESS ∧ r.mallocs = log ∧ r.vector.size = v.size + 1 ∧
      r.vector.capacity = v.capacity ∧ r.vector.element_size = v.element_size ∧
      r.vector.holds_elements ∧
      (∀ j, j < i → element_at r.vector j = element_at v j) ∧
      element_at r.vector i = some (x.take v.element_size) ∧
      (∀ j, i ≤ j → j < v.size → element_at r.vector (j + 1) = element_at v j) := by
  obtain ⟨blk, hd, hlen, hsz⟩ := holds_elements_iff.mp hv
  obtain ⟨blk2, hr, hl2, hfit, h1, h2, h3⟩ := insert_store_spec hd hlen hsz he hi h
  subst hr
  have hnew : ∀ j, j < v.size + 1 →
      element_at { v with size := v.size + 1, data := some blk2 } j =
        load blk2 (j * v.element_size) v.element_size := fun j hj =>
    element_at_eq_load (v := { v with size := v.size + 1, data := some blk2 }) rfl
      (by omega) (by rw [hl2]; exact hfit) he hj
  refine ⟨rfl, rfl, rfl, rfl, rfl, ?_, ?_, ?_, ?_⟩
  · exact holds_elements_iff.mpr ⟨blk2, rfl, by omega, by rw [hl2]; exact hfit⟩
  · intro j hj
    rw [hnew j (by omega), element_at_eq_load hd hlen hsz he (by omega), h1 j hj]
  · rw [hnew i (by omega), h2]
  · intro j hij hjs
    rw [hnew (j + 1) (by omega), element_at_eq_load hd hlen hsz he hjs, h3 j hij hjs]

/-! ## Frame lemmas: what the memory primitives leave alone -/

theorem write_frame {v v1 : Vector} {p : Pointer} {src : List Nat}
    (h : v.write p src = some v1) : same_frame v v1 := by
  unfold Vector.write at h
  split at h
  · rename_i off blk hd
    cases hst : store blk off src with
    | none => rw [hst] at h; exact absurd h (by simp)
    | some b =>
      rw [hst] at h
      simp only [Option.map_some'] at h
      rw [← Option.some.inj h]
      exact ⟨rfl, rfl, rfl, blk, b, hd, rfl, length_of_store hst⟩
  · exact absurd h (by simp)

theorem memcpy_in_frame {v v1 : Vector} {p : Pointer} {element : Option (List Nat)} {n : Nat}
    (h : v.memcpy_in p element n = some v1) : same_frame v v1 := by
  unfold Vector.memcpy_in at h
  cases element with
  | none => exact absurd h (by simp)
  | some x =>
    simp only at h
    by_cases hx : n ≤ x.length
    · rw [if_pos hx] at h
      exact write_frame h
    · rw [if_neg hx] at h
      exact absurd h (by simp)

theorem memmove_frame {v v1 : Vector} {dst src : Pointer} {n : Nat}
    (h : v.memmove dst src n = some v1) : same_frame v v1 := by
  unfold Vector.memmove at h
  cases hr : v.read src n with
  | none => rw [hr] at h; exact absurd h (by simp)
  | some bytes =>
    rw [hr] at h
    exact write_frame h

theorem same_frame_trans {v v1 v2 : Vector} (h1 : same_frame v v1) (h2 : same_frame v1 v2) :
    same_frame v v2 := by
  obtain ⟨a1, a2, a3, blk, blk1, a4, a5, a6⟩ := h1
  obtain ⟨b1, b2, b3, blk1', blk2, b4, b5, b6⟩ := h2
  rw [a5] at b4
  have : blk1' = blk1 := (Option.some.inj b4).symm
  subst this
  exact ⟨by omega, by omega, by omega, blk, blk2, a4, b5, by omega⟩

/-- The store part of `vector_push_back` returns `VECTOR_SUCCESS`, passes the
allocation log on and only adds one to `size`. -/
theorem push_back_store_frame {v : Vector} {element : Option (List Nat)} {log : List Nat}
    {r : Outcome} (h : push_back_store v element log = some r) :
    ∃ v1, same_frame v v1 ∧ r = ⟨VECTOR_SUCCESS, { v1 with size := wrap (v.size + 1) }, log⟩ := by
  unfold push_back_store at h
  cases ha : _vector_assign v v.size element with
  | none => rw [ha] at h; exact absurd h (by simp)
  | some v1 =>
    rw [ha] at h
    simp only at h
    have hf := memcpy_in_frame ha
    refine ⟨v1, hf, ?_⟩
    rw [← Option.some.inj h, hf.1]

/-- The shift-and-store part of `vector_insert` returns `VECTOR_SUCCESS`, passes
the allocation log on and only adds one to `size`. -/
theorem insert_store_frame {v : Vector} {index : Nat} {element : Option (List Nat)}
    {log : List Nat} {r : Outcome} (h : insert_store v index element log = some r) :
    ∃ v2, same_frame v v2 ∧ r = ⟨VECTOR_SUCCESS, { v2 with size := wrap (v.size + 1) }, log⟩ := by
  unfold insert_store at h
  simp only at h
  cases hm : _vector_move_right v index (_vector_offset v index) with
  | none => rw [hm] at h; exact absurd h (by simp)
  | some mv =>
    obtain ⟨moved, v1⟩ := mv
    rw [hm] at h
    simp only at h
    unfold _vector_move_right at hm
    simp only at hm
    cases hmm : v.memmove ((_vector_offset v index).add v.element_size) (_vector_offset v index)
        (wrap (wsub v.size index * v.element_size)) with
    | none => rw [hmm] at hm; exact absurd hm (by simp)
    | some v1' =>
      rw [hmm] at hm
      simp only [Option.some.injEq, Prod.mk.injEq] at hm
      obtain ⟨hm1, hm2⟩ := hm
      subst hm1 hm2
      rw [if_neg success_ne_error] at h
      have hf1 := memmove_frame hmm
      cases hc : v1'.memcpy_in (_vector_offset v index) element v1'.element_size with
      | none => rw [hc] at h; exact absurd h (by simp)
      | some v2 =>
        rw [hc] at h
        simp only at h
        have hf2 := same_frame_trans hf1 (memcpy_in_frame hc)
        refine ⟨v2, hf2, ?_⟩
        rw [← Option.some.inj h, hf2.1]

/-- With `malloc` not failing, a reallocation that returns at all returns
`VECTOR_SUCCESS`. -/
theorem _vector_reallocate_ret {cfg : Config} {a : Alloc} {v : Vector} {nc : Nat} {r : Outcome}
    (ha : a.fails = false) (h : _vector_reallocate cfg a v nc = some r) :
    r.ret = VECTOR_SUCCESS := by
  have key : ∀ n, reallocate_to a v n = some r → r.ret = VECTOR_SUCCESS := by
    intro n hn
    unfold reallocate_to at hn
    simp only at hn
    have hm : malloc a (wrap (n * v.element_size)) =
        some ((List.range (wrap (n * v.element_size))).map a.junk) := by
      unfold malloc
      rw [ha]
      rfl
    rw [hm] at hn
    simp only at hn
    split at hn
    · exact absurd hn (by simp)
    · split at hn
      · exact absurd hn (by simp)
      · split at hn
        · exact absurd hn (by simp)
        · rw [← Option.some.inj hn]
  unfold _vector_reallocate at h
  split at h
  · split at h
    · exact key _ h
    · rw [← Option.some.inj h]
  · exact key _ h

/-! ## The operations do succeed on well-formed vectors -/

theorem well_formed_iff {cfg : Config} {v : Vector} :
    v.well_formed cfg ↔
      ∃ blk, v.data = some blk ∧ blk.length = v.capacity * v.element_size ∧
        blk.length < SIZE_MOD ∧ v.size ≤ v.capacity ∧
        cfg.VECTOR_MINIMUM_CAPACITY ≤ v.capacity := by
  unfold Vector.well_formed
  cases hd : v.data with
  | none => simp
  | some blk => simp

/-- A well-formed vector holds its elements. -/
theorem holds_elements_of_well_formed {cfg : Config} {v : Vector} (h : v.well_formed cfg) :
    v.holds_elements := by
  obtain ⟨blk, hd, hl, hM, hs, _⟩ := well_formed_iff.mp h
  have : v.size * v.element_size ≤ v.capacity * v.element_size := Nat.mul_le_mul_right _ hs
  exact holds_elements_iff.mpr ⟨blk, hd, hM, by omega⟩

theorem malloc_of_not_fails {a : Alloc} (ha : a.fails = false) (n : Nat) :
    malloc a n = some ((List.range n).map a.junk) := by
  unfold malloc
  rw [ha]
  rfl

theorem store_of_le (blk src : List Nat) (off : Nat) (h : off + src.length ≤ blk.length) :
    store blk off src = some (blk.take off ++ src ++ blk.drop (off + src.length)) := by
  unfold store
  rw [if_pos h]

/-- With `malloc` not failing, a reallocation to a capacity that has room for
the elements returns `VECTOR_SUCCESS`. -/
theorem reallocate_to_total {a : Alloc} {v : Vector} {old : List Nat} (nc : Nat)
    (hd : v.data = some old) (ha : a.fails = false)
    (h1 : v.size * v.element_size ≤ old.length) (h2 : old.length < SIZE_MOD)
    (h3 : v.size * v.element_size ≤ nc * v.element_size)
    (h4 : nc * v.element_size < SIZE_MOD) :
    ∃ blk, reallocate_to a v nc =
        some ⟨VECTOR_SUCCESS, { v with data := some blk, capacity := nc },
          [nc * v.element_size]⟩ ∧
      blk.length = nc * v.element_size := by
  have hw1 : wrap (v.size * v.element_size) = v.size * v.element_size :=
    wrap_of_lt (by omega)
  have hw2 : wrap (nc * v.element_size) = nc * v.element_size := wrap_of_lt h4
  have hsl : ((old.drop 0).take (v.size * v.element_size)).length =
      v.size * v.element_size := by
    rw [List.length_take, List.length_drop]; omega
  have hfl : ((List.range (nc * v.element_size)).map a.junk).length = nc * v.element_size := by
    simp
  have hst := store_of_le ((List.range (nc * v.element_size)).map a.junk)
    ((old.drop 0).take (v.size * v.element_size)) 0 (by rw [hsl, hfl]; omega)
  unfold reallocate_to vector_byte_size
  simp only
  rw [hw1, hw2, malloc_of_not_fails ha, hd]
  simp only
  rw [load_of_le (by omega)]
  simp only
  rw [hst]
  simp only
  refine ⟨_, rfl, ?_⟩
  rw [length_of_store hst, hfl]

/-- The store part of `vector_push_back` succeeds when the block has room for
one more element. -/
theorem push_back_store_total {v : Vector} {blk x : List Nat} (log : List Nat)
    (hd : v.data = some blk) (hlen : blk.length < SIZE_MOD)
    (hroom : (v.size + 1) * v.element_size ≤ blk.length) (hx : v.element_size ≤ x.length) :
    ∃ r, push_back_store v (some x) log = some r := by
  have hS : (v.size + 1) * v.element_size = v.size * v.element_size + v.element_size := by
    rw [Nat.add_mul, Nat.one_mul]
  have hxl : (x.take v.element_size).length = v.element_size := by
    rw [List.length_take]; omega
  unfold push_back_store _vector_assign Vector.memcpy_in
  simp only
  rw [_vector_offset_eq hd (by omega), if_pos hx, write_slot hd,
    store_of_le _ _ _ (by omega)]
  exact ⟨_, rfl⟩

/-- The shift-and-store part of `vector_insert` succeeds when the block has
room for one more element. -/
theorem insert_store_total {v : Vector} {blk x : List Nat} {i : Nat} (log : List Nat)
    (hd : v.data = some blk) (hlen : blk.length < SIZE_MOD) (he : 0 < v.element_size)
    (hroom : (v.size + 1) * v.element_size ≤ blk.length) (hi : i ≤ v.size)
    (hx : v.element_size ≤ x.length) :
    ∃ r, insert_store v i (some x) log = some r := by
  have hS : (v.size + 1) * v.element_size = v.size * v.element_size + v.element_size := by
    rw [Nat.add_mul, Nat.one_mul]
  have hA : i * v.element_size ≤ v.size * v.element_size := Nat.mul_le_mul_right _ hi
  have hsub : (v.size - i) * v.element_size = v.size * v.element_size - i * v.element_size :=
    Nat.sub_mul _ _ _
  have hxl : (x.take v.element_size).length = v.element_size := by
    rw [List.length_take]; omega
  have hsl : ((blk.drop (i * v.element_size)).take ((v.size - i) * v.element_size)).length =
      (v.size - i) * v.element_size := by
    rw [List.length_take, List.length_drop]; omega
  have hst := store_of_le blk
    ((blk.drop (i * v.element_size)).take ((v.size - i) * v.element_size))
    (i * v.element_size + v.element_size) (by rw [hsl]; omega)
  have hl1 := length_of_store hst
  unfold insert_store
  simp only
  rw [_vector_offset_eq hd (by omega), _vector_move_right_eq hd hlen (by omega) he hi,
    wrap_of_lt (show i * v.element_size + v.element_size < SIZE_MOD by omega), hst]
  simp only [if_neg success_ne_error]
  unfold Vector.memcpy_in
  simp only
  rw [if_pos hx, write_slot (v := { v with data := some _ }) rfl,
    store_of_le _ _ _ (by rw [hxl, hl1]; omega)]
  exact ⟨_, rfl⟩

/-- On a well-formed vector with a non-zero element width, `vector_push_back`
and `vector_insert` at an index `≤ size` return `VECTOR_SUCCESS` and leave a
well-formed vector, when `malloc` does not fail, the element has
`element_size` bytes, and the grown capacity in bytes is a `size_t` value
(with `VECTOR_GROWTH_FACTOR ≥ 2` and `VECTOR_MINIMUM_CAPACITY ≥ 1`). -/
theorem push_back_and_insert_succeed (cfg : Config) (a : Alloc) (v : Vector) (i : Nat)
    (x : List Nat) (hv : v.well_formed cfg) (he : 0 < v.element_size)
    (hx : v.element_size ≤ x.length) (ha : a.fails = false)
    (hG : 2 ≤ cfg.VECTOR_GROWTH_FACTOR) (hM : 1 ≤ cfg.VECTOR_MINIMUM_CAPACITY)
    (hrep : v.capacity * cfg.VECTOR_GROWTH_FACTOR * v.element_size < SIZE_MOD) :
    (∃ r, vector_push_back cfg a v (some x) = some r ∧ r.ret = VECTOR_SUCCESS ∧
        r.vector.well_formed cfg) ∧
      (i ≤ v.size → ∃ r, vector_insert cfg a v i (some x) = some r ∧
        r.ret = VECTOR_SUCCESS ∧ r.vector.well_formed cfg) := by
  obtain ⟨blk, hd, hl, hlM, hsc, hmin⟩ := well_formed_iff.mp hv
  have hS : (v.size + 1) * v.element_size = v.size * v.element_size + v.element_size := by
    rw [Nat.add_mul, Nat.one_mul]
  have hsc2 : v.size * v.element_size ≤ v.capacity * v.element_size :=
    Nat.mul_le_mul_right _ hsc
  -- the state in which the element is stored, after the growth step if there is one
  have hgrow : ∀ (k : Vector → List Nat → Option Outcome),
      (∀ (w : Vector) (b : List Nat) (log : List Nat), w.data = some b →
        w.size = v.size → w.element_size = v.element_size →
        b.length = w.capacity * w.element_size → b.length < SIZE_MOD →
        (w.size + 1) * w.element_size ≤ b.length →
        cfg.VECTOR_MINIMUM_CAPACITY ≤ w.capacity →
        ∃ r, k w log = some r ∧ r.ret = VECTOR_SUCCESS ∧ r.vector.well_formed cfg) →
      ∃ r, (if _vector_should_grow v then
          match _vector_adjust_capacity cfg a v with
          | none => none
          | some rg =>
            if rg.ret = VECTOR_ERROR then some ⟨VECTOR_ERROR, rg.vector, rg.mallocs⟩
            else k rg.vector rg.mallocs
        else k v []) = some r ∧ r.ret = VECTOR_SUCCESS ∧ r.vector.well_formed cfg := by
    intro k hk
    by_cases hg : v.size = v.capacity
    · rw [if_pos (by unfold _vector_should_grow; exact decide_eq_true hg)]
      have hle : v.size * 2 ≤ v.size * cfg.VECTOR_GROWTH_FACTOR := Nat.mul_le_mul_left _ hG
      have hnc : v.size * cfg.VECTOR_GROWTH_FACTOR ≤
          v.size * cfg.VECTOR_GROWTH_FACTOR * v.element_size :=
        Nat.le_mul_of_pos_right _ he
      rw [← hg] at hrep
      have h3 : v.size * v.element_size + v.element_size ≤
          v.size * cfg.VECTOR_GROWTH_FACTOR * v.element_size := by
        have : (v.size + 1) * v.element_size ≤
            v.size * cfg.VECTOR_GROWTH_FACTOR * v.element_size :=
          Nat.mul_le_mul_right _ (by omega)
        omega
      obtain ⟨nb, hre, hnl⟩ := reallocate_to_total (v.size * cfg.VECTOR_GROWTH_FACTOR)
        hd ha (by omega) hlM (by omega) hrep
      have hadj : _vector_adjust_capacity cfg a v = some ⟨VECTOR_SUCCESS,
          { v with data := some nb, capacity := v.size * cfg.VECTOR_GROWTH_FACTOR },
          [v.size * cfg.VECTOR_GROWTH_FACTOR * v.element_size]⟩ := by
        unfold _vector_adjust_capacity _vector_reallocate
        rw [wrap_of_lt (by omega), if_neg (by omega)]
        exact hre
      rw [hadj]
      simp only [if_neg success_ne_error]
      exact hk _ nb _ rfl rfl rfl hnl (by omega) (by rw [hS]; omega) (by simp only; omega)
    · rw [if_neg (by unfold _vector_should_grow; simp [hg])]
      have : (v.size + 1) * v.element_size ≤ v.capacity * v.element_size :=
        Nat.mul_le_mul_right _ (by omega)
      exact hk v blk [] hd rfl rfl hl hlM (by omega) hmin
  constructor
  · unfold vector_push_back
    apply hgrow (fun w log => push_back_store w (some x) log)
    intro w b log hwd hws hwe hbl hbM hroom hwmin
    have hx2 : w.element_size ≤ x.length := by omega
    obtain ⟨r, hr⟩ := push_back_store_total log hwd hbM hroom hx2
    obtain ⟨v1, ⟨f1, f2, f3, b0, b1, f4, f5, f6⟩, hr2⟩ := push_back_store_frame hr
    refine ⟨r, hr, by rw [hr2], ?_⟩
    rw [hwd] at f4
    have hb0 : b0 = b := (Option.some.inj f4).symm
    subst hb0
    have hle : w.size + 1 ≤ w.size * w.element_size + w.element_size := by
      have := Nat.le_mul_of_pos_right w.size (show 0 < w.element_size by omega)
      omega
    have hfit : w.size + 1 ≤ w.capacity := by
      by_contra hc
      have : w.capacity * w.element_size + w.element_size ≤ (w.size + 1) * w.element_size := by
        have := Nat.mul_le_mul_right w.element_size (show w.capacity + 1 ≤ w.size + 1 by omega)
        rw [Nat.add_mul, Nat.one_mul] at this
        exact this
      omega
    have hwr : wrap (w.size + 1) = w.size + 1 := by
      apply wrap_of_lt
      rw [Nat.add_mul, Nat.one_mul] at hroom
      omega
    rw [hr2]
    exact well_formed_iff.mpr ⟨b1, f5, by simp only; rw [f6, f2, f3]; exact hbl,
      by omega, by simp only; rw [hwr, f2]; exact hfit, by simp only; omega⟩
  · intro hi
    unfold vector_insert
    rw [if_neg (by simp), if_neg (by omega), if_neg (by omega)]
    apply hgrow (fun w log => insert_store w i (some x) log)
    intro w b log hwd hws hwe hbl hbM hroom hwmin
    have hx2 : w.element_size ≤ x.length := by omega
    have hi2 : i ≤ w.size := by omega
    obtain ⟨r, hr⟩ := insert_store_total log hwd hbM (by omega) hroom hi2 hx2
    obtain ⟨v1, ⟨f1, f2, f3, b0, b1, f4, f5, f6⟩, hr2⟩ := insert_store_frame hr
    refine ⟨r, hr, by rw [hr2], ?_⟩
    rw [hwd] at f4
    have hb0 : b0 = b := (Option.some.inj f4).symm
    subst hb0
    have hfit : w.size + 1 ≤ w.capacity := by
      by_contra hc
      have : w.capacity * w.element_size + w.element_size ≤ (w.size + 1) * w.element_size := by
        have := Nat.mul_le_mul_right w.element_size (show w.capacity + 1 ≤ w.size + 1 by omega)
        rw [Nat.add_mul, Nat.one_mul] at this
        exact this
      omega
    have hwr : wrap (w.size + 1) = w.size + 1 := by
      apply wrap_of_lt
      have := Nat.le_mul_of_pos_right w.size (show 0 < w.element_size by omega)
      rw [Nat.add_mul, Nat.one_mul] at hroom
      omega
    rw [hr2]
    exact well_formed_iff.mpr ⟨b1, f5, by simp only; rw [f6, f2, f3]; exact hbl,
      by omega, by simp only; rw [hwr, f2]; exact hfit, by simp only; omega⟩

/-! ## C1: the size/capacity invariant -/

/-- Claim C1 (failing input).  After `vector_setup(4, 1)`, a `vector_pop_back`
on the still empty vector returns `VECTOR_SUCCESS` and leaves `size` at
`SIZE_MAX`: a reachable state in which `size ≤ capacity` does not hold.  (A
`vector_resize` to `2^63` on the same vector, whose target capacity
`2^63 * 2` wraps to 0, also returns `VECTOR_SUCCESS` with `capacity` still 4.) -/
theorem pop_back_on_empty_breaks_invariant :
    vector_pop_back spec_config ⟨false, fun _ => 0⟩ ⟨0, 4, 1, some [0, 0, 0, 0]⟩ =
        some ⟨VECTOR_SUCCESS, ⟨18446744073709551615, 4, 1, some [0, 0, 0, 0]⟩, []⟩ ∧
      vector_resize spec_config ⟨false, fun _ => 0⟩ ⟨0, 4, 1, some [0, 0, 0, 0]⟩
          9223372036854775808 =
        some ⟨VECTOR_SUCCESS, ⟨9223372036854775808, 4, 1, some [0, 0, 0, 0]⟩, []⟩ ∧
      ∃ v, Reachable spec_config v ∧ ¬ (v.size ≤ v.capacity) := by
  refine ⟨by decide, by decide, ⟨18446744073709551615, 4, 1, some [0, 0, 0, 0]⟩, ?_, by decide⟩
  have h0 : Reachable spec_config ⟨0, 4, 1, some [0, 0, 0, 0]⟩ :=
    Reachable.setup ⟨false, fun _ => 0⟩ ⟨0, 0, 0, none⟩ 4 1
      ⟨VECTOR_SUCCESS, ⟨0, 4, 1, some [0, 0, 0, 0]⟩, [4]⟩ (by decide) (by decide) (by decide) rfl
  exact Reachable.step ⟨false, fun _ => 0⟩ ⟨0, 4, 1, some [0, 0, 0, 0]⟩ Op.pop_back
    ⟨VECTOR_SUCCESS, ⟨18446744073709551615, 4, 1, some [0, 0, 0, 0]⟩, []⟩ h0 trivial (by decide)

/-- Claim C2.  On a vector that is initialized and holds its elements, with a
non-zero element width, a `vector_insert(i, x)` that returns `VECTOR_SUCCESS`
(whether or not it first had to grow the buffer) was called with `i ≤ size`
and leaves a vector of size `old_size + 1` in which the elements below `i` are
the old ones, the element at `i` is the `element_size` bytes of `x`, and every
old element at `j` with `i ≤ j < old_size` is found at `j + 1`. -/
theorem vector_insert_shifts_right (cfg : Config) (a : Alloc) (v : Vector) (i : Nat)
    (x : List Nat) (r : Outcome) (hv : v.holds_elements) (he : 0 < v.element_size)
    (h : vector_insert cfg a v i (some x) = some r) (hs : r.ret = VECTOR_SUCCESS) :
    i ≤ v.size ∧ r.vector.size = v.size + 1 ∧
      (∀ j, j < i → element_at r.vector j = element_at v j) ∧
      element_at r.vector i = some (x.take v.element_size) ∧
      (∀ j, i ≤ j → j < v.size → element_at r.vector (j + 1) = element_at v j) := by
  unfold vector_insert at h
  rw [if_neg (by simp), if_neg (by omega)] at h
  by_cases hi : i > v.size
  · rw [if_pos hi] at h
    rw [← Option.some.inj h] at hs
    exact absurd hs.symm success_ne_error
  · rw [if_neg hi] at h
    have hi2 : i ≤ v.size := by omega
    by_cases hg : _vector_should_grow v = true
    · rw [if_pos hg] at h
      cases hadj : _vector_adjust_capacity cfg a v with
      | none => rw [hadj] at h; exact absurd h (by simp)
      | some rg =>
        rw [hadj] at h
        simp only at h
        by_cases hre : rg.ret = VECTOR_ERROR
        · rw [if_pos hre] at h
          rw [← Option.some.inj h] at hs
          exact absurd hs.symm success_ne_error
        · rw [if_neg hre] at h
          obtain ⟨_, hgs, hge, hgv, hgel⟩ := _vector_reallocate_keeps hv hadj hre
          obtain ⟨_, _, h3, _, _, _, h7, h8, h9⟩ :=
            insert_store_elements hgv (by omega) (by omega) h
          rw [hgs] at h3 h9
          rw [hge] at h8
          refine ⟨hi2, h3, ?_, h8, ?_⟩
          · intro j hj
            rw [h7 j hj, hgel he j (by omega)]
          · intro j hij hjs
            rw [h9 j hij hjs, hgel he j hjs]
    · rw [if_neg hg] at h
      obtain ⟨_, _, h3, _, _, _, h7, h8, h9⟩ := insert_store_elements hv he hi2 h
      exact ⟨hi2, h3, h7, h8, h9⟩

/-- Witness for C2: the insert of scenario 2 of the spec, on a full vector, so
that the buffer grows first. -/
theorem vector_insert_shifts_right_witness :
    (⟨4, 4, 1, some [1, 2, 4, 5]⟩ : Vector).holds_elements ∧
      vector_insert spec_config ⟨false, fun _ => 0⟩ ⟨4, 4, 1, some [1, 2, 4, 5]⟩ 2 (some [3]) =
        some ⟨VECTOR_SUCCESS, ⟨5, 8, 1, some [1, 2, 3, 4, 5, 0, 0, 0]⟩, [8]⟩ ∧
      (2 ≤ 4 ∧ (5 : Nat) = 4 + 1 ∧
        (∀ j, j < 2 → element_at ⟨5, 8, 1, some [1, 2, 3, 4, 5, 0, 0, 0]⟩ j =
          element_at ⟨4, 4, 1, some [1, 2, 4, 5]⟩ j) ∧
        element_at ⟨5, 8, 1, some [1, 2, 3, 4, 5, 0, 0, 0]⟩ 2 = some [3] ∧
        (∀ j, 2 ≤ j → j < 4 → element_at ⟨5, 8, 1, some [1, 2, 3, 4, 5, 0, 0, 0]⟩ (j + 1) =
          element_at ⟨4, 4, 1, some [1, 2, 4, 5]⟩ j)) :=
  ⟨by decide, by decide,
    vector_insert_shifts_right spec_config ⟨false, fun _ => 0⟩ ⟨4, 4, 1, some [1, 2, 4, 5]⟩ 2 [3]
      ⟨VECTOR_SUCCESS, ⟨5, 8, 1, some [1, 2, 3, 4, 5, 0, 0, 0]⟩, [8]⟩
      (by decide) (by decide) (by decide) (by decide)⟩

/-! ## C3: `vector_remove` -/

/-- Claim C3 (failing input).  On the vector `[1, 2, 3]` of capacity 8,
`vector_remove(0)` leaves size 2, a quarter of the capacity, and shrinks; with
`malloc` failing, the reallocation sets `data` to `NULL`, its `VECTOR_ERROR` is
dropped and `vector_remove` returns `VECTOR_SUCCESS`: afterwards
`vector_get(0)` is `NULL` and refers to no element, while the old element at
index 1 was `2`. -/
theorem remove_reports_success_without_buffer :
    vector_remove spec_config ⟨true, fun _ => 0⟩ ⟨3, 8, 1, some [1, 2, 3, 0, 0, 0, 0, 0]⟩ 0 =
        some ⟨VECTOR_SUCCESS, ⟨2, 8, 1, none⟩, [4]⟩ ∧
      vector_get ⟨2, 8, 1, none⟩ 0 = NULL ∧
      element_at ⟨2, 8, 1, none⟩ 0 = none ∧
      element_at ⟨3, 8, 1, some [1, 2, 3, 0, 0, 0, 0, 0]⟩ 1 = some [2] := by
  decide

/-- What `_vector_move_left` does to the bytes. -/
theorem _vector_move_left_spec {v v1 : Vector} {blk : List Nat} {i : Nat}
    (hd : v.data = some blk) (hlen : blk.length < SIZE_MOD)
    (hs : v.size * v.element_size ≤ blk.length) (he : 0 < v.element_size) (hi : i < v.size)
    (h : _vector_move_left v i = some v1) :
    ∃ blk1, v1 = { v with data := some blk1 } ∧ blk1.length = blk.length ∧
      (∀ j, j < i → load blk1 (j * v.element_size) v.element_size =
        load blk (j * v.element_size) v.element_size) ∧
      (∀ j, i ≤ j → j < v.size - 1 → load blk1 (j * v.element_size) v.element_size =
        load blk ((j + 1) * v.element_size) v.element_size) := by
  have hA := mul_le_of_lt_size (Nat.le_refl (v.size * v.element_size)) hi
  have hsub : (v.size - i - 1) * v.element_size =
      v.size * v.element_size - (i * v.element_size + v.element_size) := by
    rw [Nat.sub_sub, Nat.sub_mul, Nat.add_mul, Nat.one_mul]
  have hsle : v.size ≤ v.size * v.element_size := Nat.le_mul_of_pos_right _ he
  unfold _vector_move_left Vector.memmove at h
  simp only at h
  rw [_vector_offset_eq hd (by omega)] at h
  simp only [Pointer.add] at h
  rw [wsub_of_le (a := v.size) (b := i) (by omega) (by omega),
    wsub_of_le (a := v.size - i) (b := 1) (by omega) (by omega),
    wrap_of_lt (show (v.size - i - 1) * v.element_size < SIZE_MOD by omega),
    wrap_of_lt (show i * v.element_size + v.element_size < SIZE_MOD by omega),
    read_slot hd, load_of_le (by omega)] at h
  simp only at h
  rw [write_slot hd] at h
  cases hst : store blk (i * v.element_size)
      ((blk.drop (i * v.element_size + v.element_size)).take
        ((v.size - i - 1) * v.element_size)) with
  | none => rw [hst] at h; exact absurd h (by simp)
  | some blk1 =>
    rw [hst] at h
    simp only [Option.map_some'] at h
    have hsl : ((blk.drop (i * v.element_size + v.element_size)).take
        ((v.size - i - 1) * v.element_size)).length = (v.size - i - 1) * v.element_size := by
      rw [List.length_take, List.length_drop]; omega
    refine ⟨blk1, (Option.some.inj h).symm, length_of_store hst, ?_, ?_⟩
    · intro j hj
      exact load_store_disjoint hst _ _
        (Or.inl (mul_le_of_lt_size (Nat.le_refl (i * v.element_size)) hj))
    · intro j hij hjs
      have hj1 : i * v.element_size ≤ j * v.element_size := Nat.mul_le_mul_right _ hij
      have hj2 := mul_le_of_lt_size (Nat.le_refl (v.size * v.element_size))
        (show j + 1 < v.size by omega)
      have hj3 : (j + 1) * v.element_size = j * v.element_size + v.element_size := by
        rw [Nat.add_mul, Nat.one_mul]
      rw [load_store_inside hst _ _ hj1 (by rw [hsl]; omega),
        load_load (load_of_le (by omega)) _ _ (by omega)]
      congr 1
      omega

/-- The shift of `vector_remove` holds whenever the shrink allocation, if there
is one, does not fail: on a vector that is initialized and holds its elements,
with a non-zero element width, a `vector_remove(i)` that returns
`VECTOR_SUCCESS` was called with `i < size` and leaves a vector of size
`old_size - 1` in which the elements below `i` are the old ones and the
element at `j`, for `i ≤ j < old_size - 1`, is the old element at `j + 1`. -/
theorem vector_remove_shifts_left_of_alloc (cfg : Config) (a : Alloc) (v : Vector) (i : Nat)
    (r : Outcome) (hv : v.holds_elements) (he : 0 < v.element_size) (ha : a.fails = false)
    (h : vector_remove cfg a v i = some r) (hs : r.ret = VECTOR_SUCCESS) :
    i < v.size ∧ r.vector.size = v.size - 1 ∧
      (∀ j, j < i → element_at r.vector j = element_at v j) ∧
      (∀ j, i ≤ j → j < v.size - 1 → element_at r.vector j = element_at v (j + 1)) := by
  obtain ⟨blk, hd, hlen, hsz⟩ := holds_elements_iff.mp hv
  have hsle : v.size ≤ v.size * v.element_size := Nat.le_mul_of_pos_right _ he
  unfold vector_remove at h
  rw [if_neg (by omega)] at h
  by_cases hi : i ≥ v.size
  · rw [if_pos hi] at h
    rw [← Option.some.inj h] at hs
    exact absurd hs.symm success_ne_error
  · rw [if_neg hi] at h
    have hi2 : i < v.size := by omega
    cases hm : _vector_move_left v i with
    | none => rw [hm] at h; exact absurd h (by simp)
    | some v1 =>
      rw [hm] at h
      simp only at h
      obtain ⟨blk1, hv1, hl1, m1, m2⟩ := _vector_move_left_spec hd hlen hsz he hi2 hm
      subst hv1
      simp only at h
      rw [wsub_of_le (by omega) (by omega)] at h
      have hS : (v.size - 1) * v.element_size ≤ blk1.length := by
        have : (v.size - 1) * v.element_size ≤ v.size * v.element_size :=
          Nat.mul_le_mul_right _ (by omega)
        omega
      have hw : (⟨v.size - 1, v.capacity, v.element_size, some blk1⟩ : Vector).holds_elements :=
        holds_elements_iff.mpr ⟨blk1, rfl, by omega, hS⟩
      have hnew : ∀ j, j < v.size - 1 →
          element_at ⟨v.size - 1, v.capacity, v.element_size, some blk1⟩ j =
            load blk1 (j * v.element_size) v.element_size := fun j hj =>
        element_at_eq_load (v := ⟨v.size - 1, v.capacity, v.element_size, some blk1⟩) rfl
          (by omega) hS he hj
      have hbase : (∀ j, j < i →
            element_at ⟨v.size - 1, v.capacity, v.element_size, some blk1⟩ j = element_at v j) ∧
          (∀ j, i ≤ j → j < v.size - 1 →
            element_at ⟨v.size - 1, v.capacity, v.element_size, some blk1⟩ j =
              element_at v (j + 1)) := by
        constructor
        · intro j hj
          rw [hnew j (by omega), element_at_eq_load hd hlen hsz he (by omega), m1 j hj]
        · intro j hij hjs
          rw [hnew j hjs, element_at_eq_load hd hlen hsz he (by omega), m2 j hij hjs]
      split at h
      · cases hadj : _vector_adjust_capacity cfg a
            ⟨v.size - 1, v.capacity, v.element_size, some blk1⟩ with
        | none => rw [hadj] at h; exact absurd h (by simp)
        | some rg =>
          rw [hadj] at h
          simp only at h
          have hret := _vector_reallocate_ret ha hadj
          obtain ⟨_, k1, _, _, k4⟩ :=
            _vector_reallocate_keeps hw hadj (by rw [hret]; exact success_ne_error)
          rw [← Option.some.inj h]
          refine ⟨hi2, k1, ?_, ?_⟩
          · intro j hj
            rw [k4 he j (show j < v.size - 1 by omega)]
            exact hbase.1 j hj
          · intro j hij hjs
            rw [k4 he j hjs]
            exact hbase.2 j hij hjs
      · rw [← Option.some.inj h]
        exact ⟨hi2, rfl, hbase.1, hbase.2⟩

/-! ## C4: `vector_push_back` -/

/-- What the store part of `vector_push_back` does to the bytes. -/
theorem push_back_store_spec {v : Vector} {blk : List Nat} {x log : List Nat} {r : Outcome}
    (hd : v.data = some blk) (hlen : blk.length < SIZE_MOD)
    (hs : v.size * v.element_size ≤ blk.length) (he : 0 < v.element_size)
    (h : push_back_store v (some x) log = some r) :
    ∃ blk2, r = ⟨VECTOR_SUCCESS, { v with size := v.size + 1, data := some blk2 }, log⟩ ∧
      blk2.length = blk.length ∧ (v.size + 1) * v.element_size ≤ blk.length ∧
      (∀ j, j < v.size → load blk2 (j * v.element_size) v.element_size =
        load blk (j * v.element_size) v.element_size) ∧
      load blk2 (v.size * v.element_size) v.element_size = some (x.take v.element_size) := by
  have hsle : v.size ≤ v.size * v.element_size := Nat.le_mul_of_pos_right _ he
  have hS : (v.size + 1) * v.element_size = v.size * v.element_size + v.element_size := by
    rw [Nat.add_mul, Nat.one_mul]
  unfold push_back_store _vector_assign Vector.memcpy_in at h
  simp only at h
  rw [_vector_offset_eq hd (by omega)] at h
  by_cases hx : v.element_size ≤ x.length
  · rw [if_pos hx, write_slot hd] at h
    cases hst : store blk (v.size * v.element_size) (x.take v.element_size) with
    | none => rw [hst] at h; exact absurd h (by simp)
    | some blk2 =>
      rw [hst] at h
      simp only [Option.map_some'] at h
      have hxl : (x.take v.element_size).length = v.element_size := by
        rw [List.length_take]; omega
      have hb := (store_eq_some hst).1
      rw [hxl] at hb
      have hsz : wrap (v.size + 1) = v.size + 1 := wrap_of_lt (by omega)
      rw [hsz] at h
      refine ⟨blk2, (Option.some.inj h).symm, length_of_store hst, by omega, ?_, ?_⟩
      · intro j hj
        exact load_store_disjoint hst _ _
          (Or.inl (mul_le_of_lt_size (Nat.le_refl (v.size * v.element_size)) hj))
      · have := load_store_same hst
        rw [hxl] at this
        exact this
  · rw [if_neg hx] at h
    exact absurd h (by simp)

/-- The store part of `vector_push_back` on the level of elements. -/
theorem push_back_store_elements {v : Vector} {x log : List Nat} {r : Outcome}
    (hv : v.holds_elements) (he : 0 < v.element_size)
    (h : push_back_store v (some x) log = some r) :
    r.ret = VECTOR_SUCCESS ∧ r.mallocs = log ∧ r.vector.size = v.size + 1 ∧
      r.vector.capacity = v.capacity ∧ r.vector.element_size = v.element_size ∧
      r.vector.holds_elements ∧
      (∀ j, j < v.size → element_at r.vector j = element_at v j) ∧
      element_at r.vector v.size = some (x.take v.element_size) := by
  obtain ⟨blk, hd, hlen, hsz⟩ := holds_elements_iff.mp hv
  obtain ⟨blk2, hr, hl2, hfit, h1, h2⟩ := push_back_store_spec hd hlen hsz he h
  subst hr
  have hnew : ∀ j, j < v.size + 1 →
      element_at { v with size := v.size + 1, data := some blk2 } j =
        load blk2 (j * v.element_size) v.element_size := fun j hj =>
    element_at_eq_load (v := { v with size := v.size + 1, data := some blk2 }) rfl
      (by omega) (by rw [hl2]; exact hfit) he hj
  refine ⟨rfl, rfl, rfl, rfl, rfl, ?_, ?_, ?_⟩
  · exact holds_elements_iff.mpr ⟨blk2, rfl, by omega, by rw [hl2]; exact hfit⟩
  · intro j hj
    rw [hnew j (by omega), element_at_eq_load hd hlen hsz he hj, h1 j hj]
  · rw [hnew v.size (by omega), h2]

/-- One successful `vector_push_back`, with or without growth. -/
theorem vector_push_back_elements {cfg : Config} {a : Alloc} {v : Vector} {x : List Nat}
    {r : Outcome} (hv : v.holds_elements) (he : 0 < v.element_size)
    (h : vector_push_back cfg a v (some x) = some r) (hs : r.ret = VECTOR_SUCCESS) :
    r.vector.size = v.size + 1 ∧ r.vector.element_size = v.element_size ∧
      r.vector.holds_elements ∧
      (∀ j, j < v.size → element_at r.vector j = element_at v j) ∧
      element_at r.vector v.size = some (x.take v.element_size) := by
  unfold vector_push_back at h
  by_cases hg : _vector_should_grow v = true
  · rw [if_pos hg] at h
    cases hadj : _vector_adjust_capacity cfg a v with
    | none => rw [hadj] at h; exact absurd h (by simp)
    | some rg =>
      rw [hadj] at h
      simp only at h
      by_cases hre : rg.ret = VECTOR_ERROR
      · rw [if_pos hre] at h
        rw [← Option.some.inj h] at hs
        exact absurd hs.symm success_ne_error
      · rw [if_neg hre] at h
        obtain ⟨_, hgs, hge, hgv, hgel⟩ := _vector_reallocate_keeps hv hadj hre
        obtain ⟨_, _, h3, _, h5, h6, h7, h8⟩ :=
          push_back_store_elements hgv (by omega) h
        rw [hgs] at h3 h8
        rw [hge] at h8 h5
        refine ⟨h3, h5, h6, ?_, h8⟩
        intro j hj
        rw [h7 j (by omega), hgel he j hj]
  · rw [if_neg hg] at h
    obtain ⟨_, _, h3, _, h5, h6, h7, h8⟩ := push_back_store_elements hv he h
    exact ⟨h3, h5, h6, h7, h8⟩

/-- A run of successful `vector_push_back` calls appends the elements in order. -/
theorem push_back_all_elements (cfg : Config) (axs : List (Alloc × List Nat)) :
    ∀ (v v' : Vector), v.holds_elements → 0 < v.element_size →
      push_back_all cfg v axs = some v' →
      v'.size = v.size + axs.length ∧ v'.element_size = v.element_size ∧
        (∀ j, j < v.size → element_at v' j = element_at v j) ∧
        (∀ i (hi : i < axs.length),
          element_at v' (v.size + i) = some ((axs.get ⟨i, hi⟩).2.take v.element_size)) := by
  induction axs with
  | nil =>
    intro v v' _ _ h
    unfold push_back_all at h
    rw [← Option.some.inj h]
    exact ⟨rfl, rfl, fun _ _ => rfl, fun i hi => absurd hi (by simp)⟩
  | cons ax rest ih =>
    intro v v' hv he h
    obtain ⟨a, x⟩ := ax
    unfold push_back_all at h
    cases hp : vector_push_back cfg a v (some x) with
    | none => rw [hp] at h; exact absurd h (by simp)
    | some r =>
      rw [hp] at h
      simp only at h
      by_cases hs : r.ret = VECTOR_SUCCESS
      · rw [if_pos hs] at h
        obtain ⟨p1, p2, p3, p4, p5⟩ := vector_push_back_elements hv he hp hs
        obtain ⟨q1, q2, q3, q4⟩ := ih r.vector v' p3 (by omega) h
        rw [p1] at q1 q3 q4
        rw [p2] at q2 q4
        refine ⟨by rw [q1, List.length_cons]; omega, q2, ?_, ?_⟩
        · intro j hj
          rw [q3 j (by omega), p4 j hj]
        · intro i hi
          cases i with
          | zero =>
            rw [Nat.add_zero, q3 v.size (by omega), p5]
            rfl
          | succ k =>
            have hk : k < rest.length := by
              rw [List.length_cons] at hi; omega
            have := q4 k hk
            rw [show v.size + 1 + k = v.size + (k + 1) by omega] at this
            rw [this]
            rfl
      · rw [if_neg hs] at h
        exact absurd h (by simp)

/-- A vector that `vector_setup` has just set up successfully holds its (no)
elements. -/
theorem vector_setup_holds {cfg : Config} {a : Alloc} {v0 : Vector} {c e : Nat} {r : Outcome}
    (h : vector_setup cfg a v0 c e = some r) (hs : r.ret = VECTOR_SUCCESS) :
    r.vector.holds_elements ∧ r.vector.size = 0 ∧ r.vector.element_size = e := by
  unfold vector_setup at h
  by_cases hi : vector_is_initialized v0 = true
  · rw [if_pos hi] at h
    rw [← Option.some.inj h] at hs
    exact absurd hs.symm success_ne_error
  · rw [if_neg hi] at h
    simp only at h
    cases hm : malloc a (wrap (c * e)) with
    | none =>
      rw [hm] at h
      rw [← Option.some.inj h] at hs
      exact absurd hs.symm success_ne_error
    | some fresh =>
      rw [hm] at h
      rw [← Option.some.inj h]
      refine ⟨holds_elements_iff.mpr ⟨fresh, rfl, ?_, ?_⟩, rfl, rfl⟩
      · rw [length_malloc hm]; exact wrap_lt _
      · simp

/-- Claim C4.  On a vector that is initialized and holds its elements, with a
non-zero element width, a `vector_push_back(x)` that returns `VECTOR_SUCCESS`
adds one to `size`, leaves the elements below the old size as they were, and
`vector_back()` then refers to the `element_size` bytes of `x`.  Hence, after a
successful `vector_setup` with a non-zero element width, a run of `n`
successful `vector_push_back` calls (each free to reallocate) leaves `size = n`
and the `i`-th pushed element at index `i`. -/
theorem vector_push_back_appends (cfg : Config) :
    (∀ (a : Alloc) (v : Vector) (x : List Nat) (r : Outcome),
        v.holds_elements → 0 < v.element_size →
        vector_push_back cfg a v (some x) = some r → r.ret = VECTOR_SUCCESS →
        r.vector.size = v.size + 1 ∧
          (∀ j, j < v.size → element_at r.vector j = element_at v j) ∧
          deref r.vector (vector_back r.vector) = some (x.take v.element_size)) ∧
      (∀ (a0 : Alloc) (v0 : Vector) (c e : Nat) (r0 : Outcome)
          (axs : List (Alloc × List Nat)) (v : Vector),
        vector_setup cfg a0 v0 c e = some r0 → r0.ret = VECTOR_SUCCESS → 0 < e →
        push_back_all cfg r0.vector axs = some v →
        v.size = axs.length ∧
          ∀ i (hi : i < axs.length), element_at v i = some ((axs.get ⟨i, hi⟩).2.take e)) := by
  constructor
  · intro a v x r hv he h hs
    obtain ⟨p1, p2, p3, p4, p5⟩ := vector_push_back_elements hv he h hs
    refine ⟨p1, p4, ?_⟩
    obtain ⟨blk, hd, hlen, hsz⟩ := holds_elements_iff.mp p3
    have hle : r.vector.size ≤ r.vector.size * r.vector.element_size :=
      Nat.le_mul_of_pos_right _ (by omega)
    have hb : wsub r.vector.size 1 = v.size := by
      rw [wsub_of_le (by omega) (by omega), p1]
      rfl
    show element_at r.vector (wsub r.vector.size 1) = _
    rw [hb, p5]
  · intro a0 v0 c e r0 axs v h0 hs0 he h
    obtain ⟨s1, s2, s3⟩ := vector_setup_holds h0 hs0
    obtain ⟨q1, _, _, q4⟩ := push_back_all_elements cfg axs r0.vector v s1 (by omega) h
    rw [s2, Nat.zero_add] at q1
    refine ⟨q1, ?_⟩
    intro i hi
    have := q4 i hi
    rw [s2, Nat.zero_add, s3] at this
    exact this

/-- Witness for C4: scenario 1 of the spec (`setup` with capacity 4, five
pushes, growth to capacity 8 before the fifth), with one-byte elements. -/
theorem vector_push_back_appends_witness :
    vector_setup spec_config ⟨false, fun _ => 0⟩ ⟨0, 0, 0, none⟩ 4 1 =
        some ⟨VECTOR_SUCCESS, ⟨0, 4, 1, some [0, 0, 0, 0]⟩, [4]⟩ ∧
      push_back_all spec_config ⟨0, 4, 1, some [0, 0, 0, 0]⟩
          [(⟨false, fun _ => 0⟩, [1]), (⟨false, fun _ => 0⟩, [2]), (⟨false, fun _ => 0⟩, [3]),
            (⟨false, fun _ => 0⟩, [4]), (⟨false, fun _ => 0⟩, [5])] =
        some ⟨5, 8, 1, some [1, 2, 3, 4, 5, 0, 0, 0]⟩ ∧
      vector_push_back spec_config ⟨false, fun _ => 0⟩ ⟨4, 4, 1, some [1, 2, 3, 4]⟩ (some [5]) =
        some ⟨VECTOR_SUCCESS, ⟨5, 8, 1, some [1, 2, 3, 4, 5, 0, 0, 0]⟩, [8]⟩ ∧
      ((5 : Nat) = 4 + 1 ∧
        (∀ j, j < 4 → element_at ⟨5, 8, 1, some [1, 2, 3, 4, 5, 0, 0, 0]⟩ j =
          element_at ⟨4, 4, 1, some [1, 2, 3, 4]⟩ j) ∧
        deref ⟨5, 8, 1, some [1, 2, 3, 4, 5, 0, 0, 0]⟩
          (vector_back ⟨5, 8, 1, some [1, 2, 3, 4, 5, 0, 0, 0]⟩) = some [5]) ∧
      (⟨5, 8, 1, some [1, 2, 3, 4, 5, 0, 0, 0]⟩ : Vector).size = 5 :=
  ⟨by decide, by decide, by decide,
    (vector_push_back_appends spec_config).1 ⟨false, fun _ => 0⟩ ⟨4, 4, 1, some [1, 2, 3, 4]⟩ [5]
      ⟨VECTOR_SUCCESS, ⟨5, 8, 1, some [1, 2, 3, 4, 5, 0, 0, 0]⟩, [8]⟩
      (by decide) (by decide) (by decide) (by decide),
    ((vector_push_back_appends spec_config).2 ⟨false, fun _ => 0⟩ ⟨0, 0, 0, none⟩ 4 1
      ⟨VECTOR_SUCCESS, ⟨0, 4, 1, some [0, 0, 0, 0]⟩, [4]⟩
      [(⟨false, fun _ => 0⟩, [1]), (⟨false, fun _ => 0⟩, [2]), (⟨false, fun _ => 0⟩, [3]),
        (⟨false, fun _ => 0⟩, [4]), (⟨false, fun _ => 0⟩, [5])]
      ⟨5, 8, 1, some [1, 2, 3, 4, 5, 0, 0, 0]⟩ (by decide) (by decide) (by decide)
      (by decide)).1⟩

/-! ## C5: a failed reallocation -/

/-- Claim C5 (failing input).  `_vector_reallocate(8)` on a full vector of four
one-byte elements, with `malloc` failing, returns `VECTOR_ERROR` and leaves
`data` at `NULL`: the vector is no longer initialized and the old buffer is
no longer reachable from it. -/
theorem reallocate_failure_drops_buffer :
    _vector_reallocate spec_config ⟨true, fun _ => 0⟩ ⟨4, 4, 1, some [1, 2, 3, 4]⟩ 8 =
        some ⟨VECTOR_ERROR, ⟨4, 4, 1, none⟩, [8]⟩ ∧
      vector_is_initialized ⟨4, 4, 1, none⟩ = false ∧
      vector_is_initialized ⟨4, 4, 1, some [1, 2, 3, 4]⟩ = true := by
  decide

/-! ## C8: the buffer of `vector_setup` -/

/-- Claim C8 (failing input).  `vector_setup(1, 4)` with the minimum capacity 4
returns `VECTOR_SUCCESS` with `capacity = 4` and `element_size = 4`, but the
one `malloc` call asked for `1 * 4 = 4` bytes and not for `capacity *
element_size = 16`; the second `vector_push_back` then writes outside the
block. -/
theorem setup_allocates_hint_bytes :
    vector_setup spec_config ⟨false, fun _ => 0⟩ ⟨0, 0, 0, none⟩ 1 4 =
        some ⟨VECTOR_SUCCESS, ⟨0, 4, 4, some [0, 0, 0, 0]⟩, [4]⟩ ∧
      max spec_config.VECTOR_MINIMUM_CAPACITY 1 * 4 = 16 ∧
      push_back_all spec_config ⟨0, 4, 4, some [0, 0, 0, 0]⟩
        [(⟨false, fun _ => 0⟩, [1, 1, 1, 1]), (⟨false, fun _ => 0⟩, [2, 2, 2, 2])] = none := by
  decide

/-! ## C6: the error results -/

theorem error_iff_of_cases {op : Option Outcome} {v : Vector} {c : Prop}
    (h1 : c → op = some ⟨VECTOR_ERROR, v, []⟩)
    (h2 : ¬ c → ∀ r, op = some r → r.ret = VECTOR_SUCCESS) :
    ((∃ r, op = some r ∧ r.ret = VECTOR_ERROR) ↔ c) ∧
      (∀ r, op = some r → r.ret = VECTOR_ERROR → r.vector = v ∧ r.mallocs = []) := by
  constructor
  · constructor
    · rintro ⟨r, hr, he⟩
      by_contra hc
      have := h2 hc r hr
      rw [this] at he
      exact success_ne_error he
    · intro hc
      exact ⟨_, h1 hc, rfl⟩
  · intro r hr he
    by_cases hc : c
    · rw [h1 hc] at hr
      rw [← Option.some.inj hr]
      exact ⟨rfl, rfl⟩
    · have := h2 hc r hr
      rw [this] at he
      exact absurd he success_ne_error

theorem vector_insert_cases (cfg : Config) (a : Alloc) (v : Vector) (i : Nat) (x : List Nat)
    (ha : a.fails = false) :
    ((v.element_size = 0 ∨ i > v.size) →
        vector_insert cfg a v i (some x) = some ⟨VECTOR_ERROR, v, []⟩) ∧
      (¬ (v.element_size = 0 ∨ i > v.size) →
        ∀ r, vector_insert cfg a v i (some x) = some r → r.ret = VECTOR_SUCCESS) := by
  constructor
  · intro hc
    unfold vector_insert
    rw [if_neg (by simp)]
    by_cases he : v.element_size = 0
    · rw [if_pos he]
    · rw [if_neg he, if_pos (by omega)]
  · intro hc r h
    unfold vector_insert at h
    rw [if_neg (by simp), if_neg (by omega), if_neg (by omega)] at h
    by_cases hg : _vector_should_grow v = true
    · rw [if_pos hg] at h
      cases hadj : _vector_adjust_capacity cfg a v with
      | none => rw [hadj] at h; exact absurd h (by simp)
      | some rg =>
        rw [hadj] at h
        simp only at h
        have hret := _vector_reallocate_ret ha hadj
        rw [if_neg (by rw [hret]; exact success_ne_error)] at h
        obtain ⟨v2, _, hr⟩ := insert_store_frame h
        rw [hr]
    · rw [if_neg hg] at h
      obtain ⟨v2, _, hr⟩ := insert_store_frame h
      rw [hr]

theorem vector_assign_cases (v : Vector) (i : Nat) (x : List Nat) :
    ((v.element_size = 0 ∨ i ≥ v.size) →
        vector_assign v i (some x) = some ⟨VECTOR_ERROR, v, []⟩) ∧
      (¬ (v.element_size = 0 ∨ i ≥ v.size) →
        ∀ r, vector_assign v i (some x) = some r → r.ret = VECTOR_SUCCESS) := by
  constructor
  · intro hc
    unfold vector_assign
    rw [if_neg (by simp)]
    by_cases he : v.element_size = 0
    · rw [if_pos he]
    · rw [if_neg he, if_pos (by omega)]
  · intro hc r h
    unfold vector_assign at h
    rw [if_neg (by simp), if_neg (by omega), if_neg (by omega)] at h
    cases hx : _vector_assign v i (some x) with
    | none => rw [hx] at h; exact absurd h (by simp)
    | some v1 =>
      rw [hx] at h
      rw [← Option.some.inj h]

theorem vector_remove_cases (cfg : Config) (a : Alloc) (v : Vector) (i : Nat) :
    ((v.element_size = 0 ∨ i ≥ v.size) →
        vector_remove cfg a v i = some ⟨VECTOR_ERROR, v, []⟩) ∧
      (¬ (v.element_size = 0 ∨ i ≥ v.size) →
        ∀ r, vector_remove cfg a v i = some r → r.ret = VECTOR_SUCCESS) := by
  constructor
  · intro hc
    unfold vector_remove
    by_cases he : v.element_size = 0
    · rw [if_pos he]
    · rw [if_neg he, if_pos (by omega)]
  · intro hc r h
    unfold vector_remove at h
    rw [if_neg (by omega), if_neg (by omega)] at h
    cases hx : _vector_move_left v i with
    | none => rw [hx] at h; exact absurd h (by simp)
    | some v1 =>
      rw [hx] at h
      simp only at h
      split at h
      · split at h
        · exact absurd h (by simp)
        · rw [← Option.some.inj h]
      · rw [← Option.some.inj h]

/-- Claim C6.  With `malloc` not failing and `x` a (non-null) element,
`vector_insert(i, x)` returns
`VECTOR_ERROR` if and only if `element_size == 0` or `i > size`, and
`vector_assign(i, x)` and `vector_remove(i)` return `VECTOR_ERROR` if and only
if `element_size == 0` or `i >= size`; a call that returns `VECTOR_ERROR`
leaves the whole vector (size, capacity, element width and bytes) as it was
and has allocated nothing. -/
theorem error_iff_bad_argument (cfg : Config) (a : Alloc) (v : Vector) (i : Nat) (x : List Nat)
    (ha : a.fails = false) :
    (((∃ r, vector_insert cfg a v i (some x) = some r ∧ r.ret = VECTOR_ERROR) ↔
          (v.element_size = 0 ∨ i > v.size)) ∧
        ((∃ r, vector_assign v i (some x) = some r ∧ r.ret = VECTOR_ERROR) ↔
          (v.element_size = 0 ∨ i ≥ v.size)) ∧
        ((∃ r, vector_remove cfg a v i = some r ∧ r.ret = VECTOR_ERROR) ↔
          (v.element_size = 0 ∨ i ≥ v.size))) ∧
      (∀ r, (vector_insert cfg a v i (some x) = some r ∨ vector_assign v i (some x) = some r ∨
          vector_remove cfg a v i = some r) →
        r.ret = VECTOR_ERROR → r.vector = v ∧ r.mallocs = []) := by
  obtain ⟨i1, i2⟩ := vector_insert_cases cfg a v i x ha
  obtain ⟨a1, a2⟩ := vector_assign_cases v i x
  obtain ⟨r1, r2⟩ := vector_remove_cases cfg a v i
  have hi := error_iff_of_cases i1 i2
  have has := error_iff_of_cases a1 a2
  have hr := error_iff_of_cases r1 r2
  refine ⟨⟨hi.1, has.1, hr.1⟩, ?_⟩
  intro r h he
  rcases h with h | h | h
  · exact hi.2 r h he
  · exact has.2 r h he
  · exact hr.2 r h he

/-- Witness for C6: on the vector `[1, 2, 3]` of capacity 4 the index 5 is
refused by all three operations and the index 1 is accepted by all three. -/
theorem error_iff_bad_argument_witness :
    vector_insert spec_config ⟨false, fun _ => 0⟩ ⟨3, 4, 1, some [1, 2, 3, 0]⟩ 5 (some [9]) =
        some ⟨VECTOR_ERROR, ⟨3, 4, 1, some [1, 2, 3, 0]⟩, []⟩ ∧
      vector_insert spec_config ⟨false, fun _ => 0⟩ ⟨3, 4, 1, some [1, 2, 3, 0]⟩ 1 (some [9]) =
        some ⟨VECTOR_SUCCESS, ⟨4, 4, 1, some [1, 9, 2, 3]⟩, []⟩ ∧
      vector_assign ⟨3, 4, 1, some [1, 2, 3, 0]⟩ 1 (some [9]) =
        some ⟨VECTOR_SUCCESS, ⟨3, 4, 1, some [1, 9, 3, 0]⟩, []⟩ ∧
      vector_remove spec_config ⟨false, fun _ => 0⟩ ⟨3, 4, 1, some [1, 2, 3, 0]⟩ 1 =
        some ⟨VECTOR_SUCCESS, ⟨2, 4, 1, some [1, 3, 3, 0]⟩, []⟩ ∧
      ((∃ r, vector_insert spec_config ⟨false, fun _ => 0⟩ ⟨3, 4, 1, some [1, 2, 3, 0]⟩ 5
          (some [9]) = some r ∧ r.ret = VECTOR_ERROR) ↔ ((1 : Nat) = 0 ∨ 5 > 3)) :=
  ⟨by decide, by decide, by decide, by decide,
    (error_iff_bad_argument spec_config ⟨false, fun _ => 0⟩ ⟨3, 4, 1, some [1, 2, 3, 0]⟩ 5 [9]
      rfl).1.1⟩

/-! ## C7: lookup -/

/-- Claim C7 (counterexample).  On a vector whose `data` is `NULL` (as a failed
reallocation leaves it) `vector_get(0)` returns `NULL` although `0 < size`
and `element_size != 0`. -/
theorem vector_get_null_without_buffer :
    vector_get ⟨1, 4, 4, none⟩ 0 = NULL ∧
      ¬ (0 ≥ (⟨1, 4, 4, none⟩ : Vector).size ∨ (⟨1, 4, 4, none⟩ : Vector).element_size = 0) := by
  decide

theorem wrap_wrap (n : Nat) : wrap (wrap n) = wrap n := Nat.mod_mod _ _

/-- Claim C7 (amended).  For every initialized vector and index `i`,
`vector_get(i)` returns `NULL` if and only if `i >= size` or
`element_size == 0`, and otherwise the pointer to byte offset
`i * element_size` (a `size_t` product, exact when the elements lie in the
buffer) of the block; on an empty vector `vector_front` and `vector_back`
return `NULL`. -/
theorem vector_get_null_iff (v : Vector) (i : Nat) (hinit : vector_is_initialized v = true) :
    (vector_get v i = NULL ↔ (i ≥ v.size ∨ v.element_size = 0)) ∧
      (¬ (i ≥ v.size ∨ v.element_size = 0) →
        vector_get v i = Pointer.slot (wrap (i * v.element_size)) ∧
          (v.holds_elements → wrap (i * v.element_size) = i * v.element_size)) ∧
      (v.size = 0 → vector_front v = NULL ∧ vector_back v = NULL) := by
  have hoff : _vector_offset v i = Pointer.slot (wrap (i * v.element_size)) := by
    unfold vector_is_initialized at hinit
    cases hd : v.data with
    | none => rw [hd] at hinit; exact absurd hinit (by simp)
    | some blk =>
      unfold _vector_offset Vector.data_ptr
      rw [hd]
      simp only [Pointer.add, Nat.zero_add, wrap_wrap]
  have hget : ¬ (i ≥ v.size ∨ v.element_size = 0) →
      vector_get v i = Pointer.slot (wrap (i * v.element_size)) := by
    intro hc
    unfold vector_get
    rw [if_neg (by omega), if_neg (by omega), hoff]
  refine ⟨⟨?_, ?_⟩, ?_, ?_⟩
  · intro h
    by_contra hc
    rw [hget hc] at h
    exact absurd h (by simp [NULL])
  · intro hc
    unfold vector_get
    by_cases he : v.element_size = 0
    · rw [if_pos he]
    · rw [if_neg he, if_pos (by omega)]
  · intro hc
    refine ⟨hget hc, ?_⟩
    intro hv
    obtain ⟨blk, _, hlen, hs⟩ := holds_elements_iff.mp hv
    have := mul_le_of_lt_size hs (show i < v.size by omega)
    exact wrap_of_lt (by omega)
  · intro h0
    unfold vector_front vector_back vector_get
    constructor
    · by_cases he : v.element_size = 0
      · rw [if_pos he]
      · rw [if_neg he, if_pos (by omega)]
    · by_cases he : v.element_size = 0
      · rw [if_pos he]
      · rw [if_neg he, if_pos (by omega)]

/-- Witness for C7 (amended): the lookups of scenario 5 of the spec, on five
four-byte elements in a buffer for eight. -/
theorem vector_get_null_iff_witness :
    vector_is_initialized ⟨5, 8, 4, some (List.replicate 32 7)⟩ = true ∧
      vector_get ⟨5, 8, 4, some (List.replicate 32 7)⟩ 5 = NULL ∧
      vector_get ⟨5, 8, 4, some (List.replicate 32 7)⟩ 3 = Pointer.slot 12 ∧
      (vector_get ⟨5, 8, 4, some (List.replicate 32 7)⟩ 5 = NULL ↔ (5 ≥ 5 ∨ (4 : Nat) = 0)) :=
  ⟨by decide, by decide, by decide,
    (vector_get_null_iff ⟨5, 8, 4, some (List.replicate 32 7)⟩ 5 (by decide)).1⟩

/-! ## C9: growth -/

/-- The growth step of `vector_push_back` and `vector_insert` on a full vector
whose capacity respects the minimum. -/
theorem adjust_capacity_of_full {cfg : Config} {a : Alloc} {v : Vector} {rg : Outcome}
    (hfull : v.size = v.capacity) (hcap : cfg.VECTOR_MINIMUM_CAPACITY ≤ v.capacity)
    (hG : 2 ≤ cfg.VECTOR_GROWTH_FACTOR)
    (hrep : v.size * cfg.VECTOR_GROWTH_FACTOR < SIZE_MOD)
    (h : _vector_adjust_capacity cfg a v = some rg) (hne : rg.ret ≠ VECTOR_ERROR) :
    ∃ blk, rg = ⟨VECTOR_SUCCESS,
        { v with data := some blk, capacity := v.size * cfg.VECTOR_GROWTH_FACTOR },
        [wrap (v.size * cfg.VECTOR_GROWTH_FACTOR * v.element_size)]⟩ ∧
      blk.length = wrap (v.size * cfg.VECTOR_GROWTH_FACTOR * v.element_size) := by
  have hle : v.size ≤ v.size * cfg.VECTOR_GROWTH_FACTOR :=
    Nat.le_mul_of_pos_right _ (by omega)
  unfold _vector_adjust_capacity _vector_reallocate at h
  rw [wrap_of_lt hrep, if_neg (by omega)] at h
  obtain ⟨_, blk, _, _, hr, hbl, _⟩ := reallocate_to_success h hne
  exact ⟨blk, hr, hbl⟩

theorem two_mul_le_of_growth {s g : Nat} (hG : 2 ≤ g) : s * 2 ≤ s * g :=
  Nat.mul_le_mul_left s hG

/-- Growth and store of `vector_push_back` on a full vector. -/
theorem vector_push_back_of_full {cfg : Config} {a : Alloc} {v : Vector}
    {element : Option (List Nat)} {r : Outcome}
    (hfull : v.size = v.capacity) (hcap : cfg.VECTOR_MINIMUM_CAPACITY ≤ v.capacity)
    (hM : 2 ≤ cfg.VECTOR_MINIMUM_CAPACITY) (hG : 2 ≤ cfg.VECTOR_GROWTH_FACTOR)
    (hrep : v.size * cfg.VECTOR_GROWTH_FACTOR < SIZE_MOD)
    (h : vector_push_back cfg a v element = some r) (hs : r.ret = VECTOR_SUCCESS) :
    r.mallocs = [wrap (v.size * cfg.VECTOR_GROWTH_FACTOR * v.element_size)] ∧
      r.vector.capacity = v.size * cfg.VECTOR_GROWTH_FACTOR ∧
      r.vector.size = v.size + 1 ∧ r.vector.size < r.vector.capacity ∧
      ∃ blk, r.vector.data = some blk ∧
        blk.length = wrap (v.size * cfg.VECTOR_GROWTH_FACTOR * v.element_size) := by
  have h2 := two_mul_le_of_growth (s := v.size) hG
  unfold vector_push_back at h
  rw [if_pos (by unfold _vector_should_grow; exact decide_eq_true hfull)] at h
  cases hadj : _vector_adjust_capacity cfg a v with
  | none => rw [hadj] at h; exact absurd h (by simp)
  | some rg =>
    rw [hadj] at h
    simp only at h
    by_cases hre : rg.ret = VECTOR_ERROR
    · rw [if_pos hre] at h
      rw [← Option.some.inj h] at hs
      exact absurd hs.symm success_ne_error
    · rw [if_neg hre] at h
      obtain ⟨blk, hrg, hbl⟩ := adjust_capacity_of_full hfull hcap hG hrep hadj hre
      subst hrg
      obtain ⟨v1, ⟨f1, f2, f3, b, b1, f4, f5, f6⟩, hr⟩ := push_back_store_frame h
      simp only at f1 f2 f3 f4 hr
      have hb : b = blk := (Option.some.inj f4).symm
      subst hb
      subst hr
      have hw : wrap (v.size + 1) = v.size + 1 := wrap_of_lt (by omega)
      refine ⟨rfl, f2, hw, ?_, b1, f5, by omega⟩
      show wrap (v.size + 1) < v1.capacity
      rw [hw, f2]
      omega

/-- Growth and store of `vector_insert` on a full vector. -/
theorem vector_insert_of_full {cfg : Config} {a : Alloc} {v : Vector} {index : Nat}
    {element : Option (List Nat)} {r : Outcome}
    (hfull : v.size = v.capacity) (hcap : cfg.VECTOR_MINIMUM_CAPACITY ≤ v.capacity)
    (hM : 2 ≤ cfg.VECTOR_MINIMUM_CAPACITY) (hG : 2 ≤ cfg.VECTOR_GROWTH_FACTOR)
    (hrep : v.size * cfg.VECTOR_GROWTH_FACTOR < SIZE_MOD)
    (h : vector_insert cfg a v index element = some r) (hs : r.ret = VECTOR_SUCCESS) :
    r.mallocs = [wrap (v.size * cfg.VECTOR_GROWTH_FACTOR * v.element_size)] ∧
      r.vector.capacity = v.size * cfg.VECTOR_GROWTH_FACTOR ∧
      r.vector.size = v.size + 1 ∧ r.vector.size < r.vector.capacity ∧
      ∃ blk, r.vector.data = some blk ∧
        blk.length = wrap (v.size * cfg.VECTOR_GROWTH_FACTOR * v.element_size) := by
  have h2 := two_mul_le_of_growth (s := v.size) hG
  have herr : ∀ w : Vector, some (⟨VECTOR_ERROR, w, []⟩ : Outcome) = some r → False := by
    intro w hw
    rw [← Option.some.inj hw] at hs
    exact success_ne_error hs.symm
  unfold vector_insert at h
  split at h
  · exact (herr _ h).elim
  · split at h
    · exact (herr _ h).elim
    · split at h
      · exact (herr _ h).elim
      · rw [if_pos (by unfold _vector_should_grow; exact decide_eq_true hfull)] at h
        cases hadj : _vector_adjust_capacity cfg a v with
        | none => rw [hadj] at h; exact absurd h (by simp)
        | some rg =>
          rw [hadj] at h
          simp only at h
          by_cases hre : rg.ret = VECTOR_ERROR
          · rw [if_pos hre] at h
            rw [← Option.some.inj h] at hs
            exact absurd hs.symm success_ne_error
          · rw [if_neg hre] at h
            obtain ⟨blk, hrg, hbl⟩ := adjust_capacity_of_full hfull hcap hG hrep hadj hre
            subst hrg
            obtain ⟨v1, ⟨f1, f2, f3, b, b1, f4, f5, f6⟩, hr⟩ := insert_store_frame h
            simp only at f1 f2 f3 f4 hr
            have hb : b = blk := (Option.some.inj f4).symm
            subst hb
            subst hr
            have hw : wrap (v.size + 1) = v.size + 1 := wrap_of_lt (by omega)
            refine ⟨rfl, f2, hw, ?_, b1, f5, by omega⟩
            show wrap (v.size + 1) < v1.capacity
            rw [hw, f2]
            omega

/-- Neither `vector_push_back` nor `vector_insert` allocates when
`size != capacity`. -/
theorem no_growth_of_not_full {cfg : Config} {a : Alloc} {v : Vector} {index : Nat}
    {element : Option (List Nat)} {r : Outcome} (hlt : v.size ≠ v.capacity)
    (h : vector_push_back cfg a v element = some r ∨
      vector_insert cfg a v index element = some r) :
    r.mallocs = [] ∧ r.vector.capacity = v.capacity := by
  have hg : ¬ (_vector_should_grow v = true) := by
    unfold _vector_should_grow
    simp [hlt]
  rcases h with h | h
  · unfold vector_push_back at h
    rw [if_neg hg] at h
    obtain ⟨v1, ⟨_, f2, _⟩, hr⟩ := push_back_store_frame h
    subst hr
    exact ⟨rfl, f2⟩
  · unfold vector_insert at h
    split at h
    · rw [← Option.some.inj h]; exact ⟨rfl, rfl⟩
    · split at h
      · rw [← Option.some.inj h]; exact ⟨rfl, rfl⟩
      · split at h
        · rw [← Option.some.inj h]; exact ⟨rfl, rfl⟩
        · obtain ⟨v1, ⟨_, f2, _⟩, hr⟩ := insert_store_frame h
          subst hr
          exact ⟨rfl, f2⟩

/-- Claim C9.  Let `vector_push_back` or `vector_insert` return
`VECTOR_SUCCESS`.  If `size == capacity` before the call (with
`capacity ≥ VECTOR_MINIMUM_CAPACITY`, constants `VECTOR_MINIMUM_CAPACITY ≥ 2`
and `VECTOR_GROWTH_FACTOR ≥ 2`, and `size * VECTOR_GROWTH_FACTOR` a `size_t`
value), the call made exactly one allocation, of `size * VECTOR_GROWTH_FACTOR`
elements, the element was stored in that new block, `capacity` is
`old_size * VECTOR_GROWTH_FACTOR` and `capacity > size` afterwards.  If
`size < capacity` before the call, it allocated nothing and `capacity` is
unchanged. -/
theorem growth_exactly_when_full (cfg : Config) (a : Alloc) (v : Vector) (index : Nat)
    (element : Option (List Nat)) (r : Outcome)
    (h : vector_push_back cfg a v element = some r ∨
      vector_insert cfg a v index element = some r)
    (hs : r.ret = VECTOR_SUCCESS) :
    (v.size = v.capacity → cfg.VECTOR_MINIMUM_CAPACITY ≤ v.capacity →
        2 ≤ cfg.VECTOR_MINIMUM_CAPACITY → 2 ≤ cfg.VECTOR_GROWTH_FACTOR →
        v.size * cfg.VECTOR_GROWTH_FACTOR < SIZE_MOD →
        r.mallocs = [wrap (v.size * cfg.VECTOR_GROWTH_FACTOR * v.element_size)] ∧
          r.vector.capacity = v.size * cfg.VECTOR_GROWTH_FACTOR ∧
          r.vector.size = v.size + 1 ∧ r.vector.size < r.vector.capacity ∧
          ∃ blk, r.vector.data = some blk ∧
            blk.length = wrap (v.size * cfg.VECTOR_GROWTH_FACTOR * v.element_size)) ∧
      (v.size < v.capacity → r.mallocs = [] ∧ r.vector.capacity = v.capacity) := by
  constructor
  · intro hfull hcap hM hG hrep
    rcases h with h | h
    · exact vector_push_back_of_full hfull hcap hM hG hrep h hs
    · exact vector_insert_of_full hfull hcap hM hG hrep h hs
  · intro hlt
    exact no_growth_of_not_full (by omega) h

/-- Witness for C9: the fifth push of scenario 1 of the spec grows the full
vector of capacity 4 to capacity 8 with one allocation of 8 bytes; a push onto
the vector of size 5 and capacity 8 allocates nothing. -/
theorem growth_exactly_when_full_witness :
    vector_push_back spec_config ⟨false, fun _ => 0⟩ ⟨4, 4, 1, some [1, 2, 3, 4]⟩ (some [5]) =
        some ⟨VECTOR_SUCCESS, ⟨5, 8, 1, some [1, 2, 3, 4, 5, 0, 0, 0]⟩, [8]⟩ ∧
      vector_insert spec_config ⟨false, fun _ => 0⟩ ⟨5, 8, 1, some [1, 2, 3, 4, 5, 0, 0, 0]⟩ 0
          (some [6]) =
        some ⟨VECTOR_SUCCESS, ⟨6, 8, 1, some [6, 1, 2, 3, 4, 5, 0, 0]⟩, []⟩ ∧
      ([8] = [wrap (4 * spec_config.VECTOR_GROWTH_FACTOR * 1)] ∧
        (8 : Nat) = 4 * spec_config.VECTOR_GROWTH_FACTOR ∧ (5 : Nat) = 4 + 1 ∧ (5 : Nat) < 8 ∧
        ∃ blk, some [1, 2, 3, 4, 5, 0, 0, 0] = some blk ∧
          blk.length = wrap (4 * spec_config.VECTOR_GROWTH_FACTOR * 1)) ∧
      (([] : List Nat) = [] ∧ (8 : Nat) = 8) :=
  ⟨by decide, by decide,
    (growth_exactly_when_full spec_config ⟨false, fun _ => 0⟩ ⟨4, 4, 1, some [1, 2, 3, 4]⟩ 0
      (some [5]) ⟨VECTOR_SUCCESS, ⟨5, 8, 1, some [1, 2, 3, 4, 5, 0, 0, 0]⟩, [8]⟩
      (Or.inl (by decide)) (by decide)).1 (by decide) (by decide) (by decide) (by decide)
      (by decide),
    (growth_exactly_when_full spec_config ⟨false, fun _ => 0⟩
      ⟨5, 8, 1, some [1, 2, 3, 4, 5, 0, 0, 0]⟩ 0 (some [6])
      ⟨VECTOR_SUCCESS, ⟨6, 8, 1, some [6, 1, 2, 3, 4, 5, 0, 0]⟩, []⟩
      (Or.inr (by decide)) (by decide)).2 (by decide)⟩

/-! ## C10: shrinking after a removal -/

/-- The allocation and the capacity that `reallocate_to` leaves. -/
theorem reallocate_to_shape {a : Alloc} {v : Vector} {n : Nat} {r : Outcome}
    (h : reallocate_to a v n = some r) :
    r.mallocs = [wrap (n * v.element_size)] ∧ r.vector.size = v.size ∧
      r.vector.element_size = v.element_size ∧
      (a.fails = false → r.vector.capacity = n) ∧
      (a.fails = true → r.vector.capacity = v.capacity) := by
  by_cases hne : r.ret = VECTOR_ERROR
  · unfold reallocate_to at h
    simp only at h
    cases hm : malloc a (wrap (n * v.element_size)) with
    | none =>
      rw [hm] at h
      simp only at h
      have hf := malloc_eq_none.mp hm
      rw [← Option.some.inj h]
      exact ⟨rfl, rfl, rfl, fun h0 => absurd hf (by rw [h0]; simp), fun _ => rfl⟩
    | some fresh =>
      rw [hm] at h
      simp only at h
      split at h
      · exact absurd h (by simp)
      · split at h
        · exact absurd h (by simp)
        · split at h
          · exact absurd h (by simp)
          · rw [← Option.some.inj h] at hne
            exact absurd hne success_ne_error
  · obtain ⟨_, blk, _, hfa, hr, _⟩ := reallocate_to_success h hne
    subst hr
    exact ⟨rfl, rfl, rfl, fun _ => rfl, fun h1 => absurd hfa (by rw [h1]; simp)⟩

/-- The allocation and the capacity that `_vector_reallocate` leaves: nothing
happens below the minimum capacity when the capacity is at the minimum
already, and otherwise one block for `max new_capacity
VECTOR_MINIMUM_CAPACITY` elements is requested. -/
theorem _vector_reallocate_shape {cfg : Config} {a : Alloc} {v : Vector} {n : Nat} {r : Outcome}
    (h : _vector_reallocate cfg a v n = some r) :
    r.vector.size = v.size ∧ r.vector.element_size = v.element_size ∧
      ((n < cfg.VECTOR_MINIMUM_CAPACITY ∧ v.capacity ≤ cfg.VECTOR_MINIMUM_CAPACITY) →
        r.mallocs = [] ∧ r.vector.capacity = v.capacity) ∧
      (¬ (n < cfg.VECTOR_MINIMUM_CAPACITY ∧ v.capacity ≤ cfg.VECTOR_MINIMUM_CAPACITY) →
        r.mallocs = [wrap (max n cfg.VECTOR_MINIMUM_CAPACITY * v.element_size)] ∧
          (a.fails = false → r.vector.capacity = max n cfg.VECTOR_MINIMUM_CAPACITY) ∧
          (a.fails = true → r.vector.capacity = v.capacity)) := by
  unfold _vector_reallocate at h
  by_cases h1 : n < cfg.VECTOR_MINIMUM_CAPACITY
  · rw [if_pos h1] at h
    by_cases h2 : v.capacity > cfg.VECTOR_MINIMUM_CAPACITY
    · rw [if_pos h2] at h
      obtain ⟨s1, s2, s3, s4, s5⟩ := reallocate_to_shape h
      have hmax : max n cfg.VECTOR_MINIMUM_CAPACITY = cfg.VECTOR_MINIMUM_CAPACITY :=
        Nat.max_eq_right (by omega)
      rw [hmax]
      exact ⟨s2, s3, fun hc => absurd hc.2 (by omega), fun _ => ⟨s1, s4, s5⟩⟩
    · rw [if_neg h2] at h
      rw [← Option.some.inj h]
      exact ⟨rfl, rfl, fun _ => ⟨rfl, rfl⟩, fun hc => absurd ⟨h1, by omega⟩ hc⟩
  · rw [if_neg h1] at h
    obtain ⟨s1, s2, s3, s4, s5⟩ := reallocate_to_shape h
    have hmax : max n cfg.VECTOR_MINIMUM_CAPACITY = n := Nat.max_eq_left (by omega)
    rw [hmax]
    exact ⟨s2, s3, fun hc => absurd hc.1 h1, fun _ => ⟨s1, s4, s5⟩⟩

/-- The shrink step shared by `vector_pop_back` and `vector_remove`, run on the
vector `w` whose size is already decremented: `t` is the outcome of the
shrink test. -/
theorem shrink_step_shape {cfg : Config} {a : Alloc} {w : Vector} {r : Outcome} {t : Prop}
    [Decidable t]
    (hrep : w.size * cfg.VECTOR_GROWTH_FACTOR < SIZE_MOD)
    (h : (if t then
        match _vector_adjust_capacity cfg a w with
        | none => none
        | some rg => some (⟨VECTOR_SUCCESS, rg.vector, rg.mallocs⟩ : Outcome)
      else some ⟨VECTOR_SUCCESS, w, []⟩) = some r) :
    r.ret = VECTOR_SUCCESS ∧ r.vector.size = w.size ∧
      (r.mallocs ≠ [] ↔ (t ∧
        ¬ (w.size * cfg.VECTOR_GROWTH_FACTOR < cfg.VECTOR_MINIMUM_CAPACITY ∧
          w.capacity ≤ cfg.VECTOR_MINIMUM_CAPACITY))) ∧
      (r.mallocs ≠ [] →
        r.mallocs = [wrap (max (w.size * cfg.VECTOR_GROWTH_FACTOR)
          cfg.VECTOR_MINIMUM_CAPACITY * w.element_size)] ∧
        (a.fails = false → r.vector.capacity =
          max (w.size * cfg.VECTOR_GROWTH_FACTOR) cfg.VECTOR_MINIMUM_CAPACITY)) ∧
      (r.mallocs = [] → r.vector.capacity = w.capacity) ∧
      (cfg.VECTOR_MINIMUM_CAPACITY ≤ w.capacity →
        cfg.VECTOR_MINIMUM_CAPACITY ≤ r.vector.capacity) := by
  by_cases ht : t
  · rw [if_pos ht] at h
    cases hadj : _vector_adjust_capacity cfg a w with
    | none => rw [hadj] at h; exact absurd h (by simp)
    | some rg =>
      rw [hadj] at h
      simp only at h
      unfold _vector_adjust_capacity at hadj
      rw [wrap_of_lt hrep] at hadj
      obtain ⟨s1, s2, s3, s4⟩ := _vector_reallocate_shape hadj
      rw [← Option.some.inj h]
      simp only
      by_cases hc : w.size * cfg.VECTOR_GROWTH_FACTOR < cfg.VECTOR_MINIMUM_CAPACITY ∧
          w.capacity ≤ cfg.VECTOR_MINIMUM_CAPACITY
      · obtain ⟨m1, m2⟩ := s3 hc
        refine ⟨trivial, s1, ?_, ?_, fun _ => m2, fun hm => by omega⟩
        · rw [m1]
          exact ⟨fun hx => absurd rfl hx, fun hx => absurd hc hx.2⟩
        · intro hx
          exact absurd m1 hx
      · obtain ⟨m1, m2, m3⟩ := s4 hc
        refine ⟨trivial, s1, ?_, ?_, ?_, ?_⟩
        · rw [m1]
          exact ⟨fun _ => ⟨ht, hc⟩, fun _ => by simp⟩
        · intro _
          exact ⟨m1, m2⟩
        · intro hx
          rw [m1] at hx
          exact absurd hx (by simp)
        · intro hm
          cases hf : a.fails with
          | false =>
            rw [m2 hf]
            exact Nat.le_max_right _ _
          | true =>
            rw [m3 hf]
            exact hm
  · rw [if_neg ht] at h
    rw [← Option.some.inj h]
    exact ⟨rfl, rfl, ⟨fun hx => absurd rfl hx, fun hx => absurd hx.1 ht⟩,
      fun hx => absurd rfl hx, fun _ => rfl, fun hm => hm⟩

/-- Claim C10 (counterexample).  On a vector of capacity 4 and size 2 (minimum
capacity 4, threshold a quarter) `vector_pop_back` leaves size 1, a quarter of
the capacity, and yet allocates nothing: the reallocation is skipped because
the target `1 * 2` is below the minimum capacity and the capacity is not above
it. -/
theorem pop_back_at_quarter_without_reallocation :
    vector_pop_back spec_config ⟨false, fun _ => 0⟩ ⟨2, 4, 1, some [1, 2, 0, 0]⟩ =
        some ⟨VECTOR_SUCCESS, ⟨1, 4, 1, some [1, 2, 0, 0]⟩, []⟩ ∧
      1 * spec_config.shrink_den = 4 * spec_config.shrink_num := by
  decide

/-- Claim C10 (amended).  Let the vector have a non-zero element width and
`0 < size`, with `(size - 1) * VECTOR_GROWTH_FACTOR` a `size_t` value, and write
`new_size = size - 1`.  A `vector_pop_back`, and a `vector_remove` at an index
below `size` on a capacity that is a multiple of 4, returns `VECTOR_SUCCESS`
with size `new_size`, and it calls `malloc` if and only if the shrink test holds
(`new_size == capacity * VECTOR_SHRINK_THRESHOLD` for `vector_pop_back`,
`new_size` a quarter of the capacity for `vector_remove`) and not both
`new_size * VECTOR_GROWTH_FACTOR < VECTOR_MINIMUM_CAPACITY` and
`capacity ≤ VECTOR_MINIMUM_CAPACITY`.  If it calls `malloc` it does so exactly
once, for `max (new_size * VECTOR_GROWTH_FACTOR) VECTOR_MINIMUM_CAPACITY`
elements, which is the new capacity when `malloc` does not fail; if it does not,
the capacity is unchanged.  A capacity `≥ VECTOR_MINIMUM_CAPACITY` stays so. -/
theorem shrink_after_removal (cfg : Config) (a : Alloc) (v : Vector) (index : Nat) (r : Outcome)
    (he : v.element_size ≠ 0) (hpos : 0 < v.size) (hsz : v.size < SIZE_MOD)
    (hrep : (v.size - 1) * cfg.VECTOR_GROWTH_FACTOR < SIZE_MOD) :
    (vector_pop_back cfg a v = some r →
        r.ret = VECTOR_SUCCESS ∧ r.vector.size = v.size - 1 ∧
        (r.mallocs ≠ [] ↔ ((v.size - 1) * cfg.shrink_den = v.capacity * cfg.shrink_num ∧
          ¬ ((v.size - 1) * cfg.VECTOR_GROWTH_FACTOR < cfg.VECTOR_MINIMUM_CAPACITY ∧
            v.capacity ≤ cfg.VECTOR_MINIMUM_CAPACITY))) ∧
        (r.mallocs ≠ [] →
          r.mallocs = [wrap (max ((v.size - 1) * cfg.VECTOR_GROWTH_FACTOR)
            cfg.VECTOR_MINIMUM_CAPACITY * v.element_size)] ∧
          (a.fails = false → r.vector.capacity =
            max ((v.size - 1) * cfg.VECTOR_GROWTH_FACTOR) cfg.VECTOR_MINIMUM_CAPACITY)) ∧
        (r.mallocs = [] → r.vector.capacity = v.capacity) ∧
        (cfg.VECTOR_MINIMUM_CAPACITY ≤ v.capacity →
          cfg.VECTOR_MINIMUM_CAPACITY ≤ r.vector.capacity)) ∧
      (vector_remove cfg a v index = some r → index < v.size → 4 ∣ v.capacity →
        r.ret = VECTOR_SUCCESS ∧ r.vector.size = v.size - 1 ∧
        (r.mallocs ≠ [] ↔ ((v.size - 1) * 4 = v.capacity ∧
          ¬ ((v.size - 1) * cfg.VECTOR_GROWTH_FACTOR < cfg.VECTOR_MINIMUM_CAPACITY ∧
            v.capacity ≤ cfg.VECTOR_MINIMUM_CAPACITY))) ∧
        (r.mallocs ≠ [] →
          r.mallocs = [wrap (max ((v.size - 1) * cfg.VECTOR_GROWTH_FACTOR)
            cfg.VECTOR_MINIMUM_CAPACITY * v.element_size)] ∧
          (a.fails = false → r.vector.capacity =
            max ((v.size - 1) * cfg.VECTOR_GROWTH_FACTOR) cfg.VECTOR_MINIMUM_CAPACITY)) ∧
        (r.mallocs = [] → r.vector.capacity = v.capacity) ∧
        (cfg.VECTOR_MINIMUM_CAPACITY ≤ v.capacity →
          cfg.VECTOR_MINIMUM_CAPACITY ≤ r.vector.capacity)) := by
  have hw : wsub v.size 1 = v.size - 1 := wsub_of_le (by omega) hsz
  constructor
  · intro h
    unfold vector_pop_back at h
    rw [if_neg he] at h
    simp only at h
    unfold _vector_should_shrink at h
    simp only [hw, decide_eq_true_eq] at h
    exact shrink_step_shape (w := { v with size := v.size - 1 }) hrep h
  · intro h hi h4
    unfold vector_remove at h
    rw [if_neg he, if_neg (by omega)] at h
    cases hm : _vector_move_left v index with
    | none => rw [hm] at h; exact absurd h (by simp)
    | some v1 =>
      rw [hm] at h
      simp only at h
      obtain ⟨f1, f2, f3, _⟩ := memmove_frame hm
      rw [f1, hw] at h
      have hs := shrink_step_shape (w := { v1 with size := v.size - 1 })
        (t := v.size - 1 = v1.capacity / 4) hrep h
      simp only at hs
      rw [f2, f3] at hs
      have hq : (v.size - 1 = v.capacity / 4) ↔ ((v.size - 1) * 4 = v.capacity) := by
        obtain ⟨k, hk⟩ := h4
        omega
      rw [hq] at hs
      exact hs

/-- Witness for C10 (amended): scenario 4 of the spec.  The pop from size 5 to
size 4 on capacity 16 allocates once, 8 elements, and the pop from size 6 to
size 5 allocates nothing; the same holds for `vector_remove` at index 0. -/
theorem shrink_after_removal_witness :
    vector_pop_back spec_config ⟨false, fun _ => 0⟩ ⟨5, 16, 1, some (List.range 16)⟩ =
        some ⟨VECTOR_SUCCESS, ⟨4, 8, 1, some [0, 1, 2, 3, 0, 0, 0, 0]⟩, [8]⟩ ∧
      vector_remove spec_config ⟨false, fun _ => 0⟩ ⟨5, 16, 1, some (List.range 16)⟩ 0 =
        some ⟨VECTOR_SUCCESS, ⟨4, 8, 1, some [1, 2, 3, 4, 0, 0, 0, 0]⟩, [8]⟩ ∧
      vector_pop_back spec_config ⟨false, fun _ => 0⟩ ⟨6, 16, 1, some (List.range 16)⟩ =
        some ⟨VECTOR_SUCCESS, ⟨5, 16, 1, some (List.range 16)⟩, []⟩ ∧
      ([8] ≠ [] ↔ ((5 - 1) * spec_config.shrink_den = 16 * spec_config.shrink_num ∧
        ¬ ((5 - 1) * spec_config.VECTOR_GROWTH_FACTOR < spec_config.VECTOR_MINIMUM_CAPACITY ∧
          16 ≤ spec_config.VECTOR_MINIMUM_CAPACITY))) ∧
      ([8] ≠ [] ↔ ((5 - 1) * 4 = 16 ∧
        ¬ ((5 - 1) * spec_config.VECTOR_GROWTH_FACTOR < spec_config.VECTOR_MINIMUM_CAPACITY ∧
          16 ≤ spec_config.VECTOR_MINIMUM_CAPACITY))) :=
  ⟨by decide, by decide, by decide,
    ((shrink_after_removal spec_config ⟨false, fun _ => 0⟩ ⟨5, 16, 1, some (List.range 16)⟩ 0
      ⟨VECTOR_SUCCESS, ⟨4, 8, 1, some [0, 1, 2, 3, 0, 0, 0, 0]⟩, [8]⟩
      (by decide) (by decide) (by decide) (by decide)).1 (by decide)).2.2.1,
    ((shrink_after_removal spec_config ⟨false, fun _ => 0⟩ ⟨5, 16, 1, some (List.range 16)⟩ 0
      ⟨VECTOR_SUCCESS, ⟨4, 8, 1, some [1, 2, 3, 4, 0, 0, 0, 0]⟩, [8]⟩
      (by decide) (by decide) (by decide) (by decide)).2 (by decide) (by decide)
      (by decide)).2.2.1⟩

/-! ## C11, C12, C13: `vector_resize`, `vector_reserve`, `vector_shrink_to_fit` -/

theorem element_at_of_zero_width {v : Vector} (he : v.element_size = 0) (j : Nat) :
    element_at v j = none := by
  unfold element_at deref vector_get
  rw [if_pos he]
  unfold Vector.read NULL
  rfl

/-- The elements below the size do not depend on the value of `size`. -/
theorem element_at_with_size (w : Vector) (n : Nat) {j : Nat} (h1 : j < n) (h2 : j < w.size) :
    element_at { w with size := n } j = element_at w j := by
  unfold element_at deref vector_get
  by_cases he : w.element_size = 0
  · simp only [he, if_true]
    rfl
  · simp only [he, if_false]
    rw [if_neg (by omega), if_neg (by omega)]
    rfl

/-- A reallocation that does not fail keeps the elements, whatever the element
width. -/
theorem _vector_reallocate_keeps_elements {cfg : Config} {a : Alloc} {v : Vector} {nc : Nat}
    {r : Outcome} (hv : v.holds_elements) (h : _vector_reallocate cfg a v nc = some r)
    (hs : r.ret ≠ VECTOR_ERROR) :
    r.vector.size = v.size ∧ ∀ j, j < v.size → element_at r.vector j = element_at v j := by
  obtain ⟨_, k1, k2, _, k4⟩ := _vector_reallocate_keeps hv h hs
  refine ⟨k1, ?_⟩
  intro j hj
  by_cases he : v.element_size = 0
  · rw [element_at_of_zero_width he, element_at_of_zero_width (by rw [k2]; exact he)]
  · exact k4 (by omega) j hj

/-- The capacity after a reallocation that does not fail, on a vector whose
capacity respects the minimum. -/
theorem _vector_reallocate_capacity {cfg : Config} {a : Alloc} {v : Vector} {n : Nat}
    {r : Outcome} (h : _vector_reallocate cfg a v n = some r) (hs : r.ret ≠ VECTOR_ERROR)
    (hmin : cfg.VECTOR_MINIMUM_CAPACITY ≤ v.capacity) :
    r.vector.capacity = max n cfg.VECTOR_MINIMUM_CAPACITY := by
  unfold _vector_reallocate at h
  by_cases h1 : n < cfg.VECTOR_MINIMUM_CAPACITY
  · rw [if_pos h1] at h
    rw [Nat.max_eq_right (by omega)]
    by_cases h2 : v.capacity > cfg.VECTOR_MINIMUM_CAPACITY
    · rw [if_pos h2] at h
      obtain ⟨_, _, _, _, hr, _⟩ := reallocate_to_success h hs
      rw [hr]
    · rw [if_neg h2] at h
      rw [← Option.some.inj h]
      show v.capacity = cfg.VECTOR_MINIMUM_CAPACITY
      omega
  · rw [if_neg h1] at h
    rw [Nat.max_eq_left (by omega)]
    obtain ⟨_, _, _, _, hr, _⟩ := reallocate_to_success h hs
    rw [hr]

/-- A `vector_resize` that returns `VECTOR_SUCCESS` has set `size`. -/
theorem vector_resize_size {cfg : Config} {a : Alloc} {v : Vector} {n : Nat} {r : Outcome}
    (h : vector_resize cfg a v n = some r) (hs : r.ret = VECTOR_SUCCESS) :
    r.vector.size = n := by
  unfold vector_resize at h
  split at h
  · cases hre : _vector_reallocate cfg a v (wrap (n * cfg.VECTOR_GROWTH_FACTOR)) with
    | none => rw [hre] at h; exact absurd h (by simp)
    | some rr =>
      rw [hre] at h
      simp only at h
      by_cases he : rr.ret = -1
      · rw [if_pos he] at h
        rw [← Option.some.inj h] at hs
        exact absurd hs.symm success_ne_error
      · rw [if_neg he] at h
        rw [← Option.some.inj h]
  · rw [← Option.some.inj h]

/-- What a `vector_resize` that is defined and returns `VECTOR_SUCCESS` has done.
On a vector that is initialized and holds its elements, with
`capacity ≥ VECTOR_MINIMUM_CAPACITY` and `n * VECTOR_GROWTH_FACTOR` a `size_t`
value, a `vector_resize(n)` that returns `VECTOR_SUCCESS` sets `size` to `n` and
keeps the elements below `min(old_size, n)`; when `n ≤ capacity` and
`n > old_size * VECTOR_SHRINK_THRESHOLD` it allocates nothing and keeps the
capacity, and otherwise the capacity becomes
`max (n * VECTOR_GROWTH_FACTOR) VECTOR_MINIMUM_CAPACITY`.  A `vector_clear()`
that returns `VECTOR_SUCCESS` leaves `size = 0`. -/
theorem vector_resize_sets_size (cfg : Config) (a : Alloc) (v : Vector) (n : Nat) (r : Outcome)
    (hv : v.holds_elements) (hmin : cfg.VECTOR_MINIMUM_CAPACITY ≤ v.capacity)
    (hrep : n * cfg.VECTOR_GROWTH_FACTOR < SIZE_MOD)
    (h : vector_resize cfg a v n = some r) (hs : r.ret = VECTOR_SUCCESS) :
    r.vector.size = n ∧
      (∀ j, j < min v.size n → element_at r.vector j = element_at v j) ∧
      ((n ≤ v.capacity ∧ v.size * cfg.shrink_num < n * cfg.shrink_den) →
        r.vector.capacity = v.capacity ∧ r.mallocs = []) ∧
      (¬ (n ≤ v.capacity ∧ v.size * cfg.shrink_num < n * cfg.shrink_den) →
        r.vector.capacity = max (n * cfg.VECTOR_GROWTH_FACTOR) cfg.VECTOR_MINIMUM_CAPACITY) ∧
      (∀ r0, vector_clear cfg a v = some r0 → r0.ret = VECTOR_SUCCESS → r0.vector.size = 0) := by
  refine ⟨vector_resize_size h hs, ?_, ?_, ?_, fun r0 h0 hs0 => vector_resize_size h0 hs0⟩
  · intro j hj
    have hj1 : j < v.size := by omega
    have hj2 : j < n := by omega
    unfold vector_resize at h
    split at h
    · cases hre : _vector_reallocate cfg a v (wrap (n * cfg.VECTOR_GROWTH_FACTOR)) with
      | none => rw [hre] at h; exact absurd h (by simp)
      | some rr =>
        rw [hre] at h
        simp only at h
        by_cases he : rr.ret = -1
        · rw [if_pos he] at h
          rw [← Option.some.inj h] at hs
          exact absurd hs.symm success_ne_error
        · rw [if_neg he] at h
          obtain ⟨k1, k2⟩ := _vector_reallocate_keeps_elements hv hre he
          rw [← Option.some.inj h]
          show element_at { rr.vector with size := n } j = element_at v j
          rw [element_at_with_size rr.vector n hj2 (by omega), k2 j hj1]
    · rw [← Option.some.inj h]
      exact element_at_with_size v n hj2 hj1
  · intro hc
    unfold vector_resize at h
    rw [if_neg (by omega)] at h
    rw [← Option.some.inj h]
    exact ⟨rfl, rfl⟩
  · intro hc
    unfold vector_resize at h
    rw [if_pos (by omega), wrap_of_lt hrep] at h
    cases hre : _vector_reallocate cfg a v (n * cfg.VECTOR_GROWTH_FACTOR) with
    | none => rw [hre] at h; exact absurd h (by simp)
    | some rr =>
      rw [hre] at h
      simp only at h
      by_cases he : rr.ret = -1
      · rw [if_pos he] at h
        rw [← Option.some.inj h] at hs
        exact absurd hs.symm success_ne_error
      · rw [if_neg he] at h
        rw [← Option.some.inj h]
        show rr.vector.capacity = max (n * cfg.VECTOR_GROWTH_FACTOR) cfg.VECTOR_MINIMUM_CAPACITY
        exact _vector_reallocate_capacity hre he hmin

/-- Example: on `[1, 2, 3, 4]` with capacity 8, `vector_resize(1)`
shrinks to the minimum capacity 4 and keeps element 0, `vector_resize(9)` grows
to capacity 18, and `vector_resize(6)` allocates nothing. -/
theorem vector_resize_sets_size_witness :
    vector_resize spec_config ⟨false, fun _ => 0⟩ ⟨4, 8, 1, some [1, 2, 3, 4, 0, 0, 0, 0]⟩ 1 =
        some ⟨VECTOR_SUCCESS, ⟨1, 4, 1, some [1, 2, 3, 4]⟩, [4]⟩ ∧
      vector_resize spec_config ⟨false, fun _ => 0⟩ ⟨4, 8, 1, some [1, 2, 3, 4, 0, 0, 0, 0]⟩ 9 =
        some ⟨VECTOR_SUCCESS,
          ⟨9, 18, 1, some [1, 2, 3, 4, 0, 0, 0, 0, 0, 0, 0, 0, 0, 0, 0, 0, 0, 0]⟩, [18]⟩ ∧
      vector_resize spec_config ⟨false, fun _ => 0⟩ ⟨4, 8, 1, some [1, 2, 3, 4, 0, 0, 0, 0]⟩ 6 =
        some ⟨VECTOR_SUCCESS, ⟨6, 8, 1, some [1, 2, 3, 4, 0, 0, 0, 0]⟩, []⟩ ∧
      (⟨1, 4, 1, some [1, 2, 3, 4]⟩ : Vector).size = 1 ∧
      (∀ j, j < min 4 1 → element_at ⟨1, 4, 1, some [1, 2, 3, 4]⟩ j =
        element_at ⟨4, 8, 1, some [1, 2, 3, 4, 0, 0, 0, 0]⟩ j) :=
  ⟨by decide, by decide, by decide,
    (vector_resize_sets_size spec_config ⟨false, fun _ => 0⟩
      ⟨4, 8, 1, some [1, 2, 3, 4, 0, 0, 0, 0]⟩ 1
      ⟨VECTOR_SUCCESS, ⟨1, 4, 1, some [1, 2, 3, 4]⟩, [4]⟩
      (by decide) (by decide) (by decide) (by decide) (by decide)).1,
    (vector_resize_sets_size spec_config ⟨false, fun _ => 0⟩
      ⟨4, 8, 1, some [1, 2, 3, 4, 0, 0, 0, 0]⟩ 1
      ⟨VECTOR_SUCCESS, ⟨1, 4, 1, some [1, 2, 3, 4]⟩, [4]⟩
      (by decide) (by decide) (by decide) (by decide) (by decide)).2.1⟩

/-- On a well-formed vector with more elements than the minimum capacity,
`vector_clear()` is undefined even though `malloc` does not fail: the
reallocation to the minimum capacity copies all `size` elements into the new
block. -/
theorem vector_clear_undefined_above_minimum (cfg : Config) (a : Alloc) (v : Vector)
    (hv : v.well_formed cfg) (he : 0 < v.element_size) (ha : a.fails = false)
    (hM : 1 ≤ cfg.VECTOR_MINIMUM_CAPACITY) (hbig : cfg.VECTOR_MINIMUM_CAPACITY < v.size) :
    vector_clear cfg a v = none := by
  obtain ⟨blk, hd, hl, hlM, hsc, hmin⟩ := well_formed_iff.mp hv
  have h1 : v.size * v.element_size ≤ v.capacity * v.element_size :=
    Nat.mul_le_mul_right _ hsc
  have h2 : cfg.VECTOR_MINIMUM_CAPACITY * v.element_size + v.element_size ≤
      v.size * v.element_size := mul_le_of_lt_size (Nat.le_refl _) hbig
  have hw1 : wrap (v.size * v.element_size) = v.size * v.element_size :=
    wrap_of_lt (by omega)
  have hw2 : wrap (cfg.VECTOR_MINIMUM_CAPACITY * v.element_size) =
      cfg.VECTOR_MINIMUM_CAPACITY * v.element_size := wrap_of_lt (by omega)
  have hw0 : wrap (0 * cfg.VECTOR_GROWTH_FACTOR) = 0 := by
    rw [Nat.zero_mul]
    rfl
  have hsl : ((blk.drop 0).take (v.size * v.element_size)).length =
      v.size * v.element_size := by
    rw [List.length_take, List.length_drop]; omega
  have hfl : ((List.range (cfg.VECTOR_MINIMUM_CAPACITY * v.element_size)).map a.junk).length =
      cfg.VECTOR_MINIMUM_CAPACITY * v.element_size := by simp
  have hst : store ((List.range (cfg.VECTOR_MINIMUM_CAPACITY * v.element_size)).map a.junk) 0
      ((blk.drop 0).take (v.size * v.element_size)) = none := by
    unfold store
    rw [if_neg (by rw [hsl, hfl]; omega)]
  have hre : reallocate_to a v cfg.VECTOR_MINIMUM_CAPACITY = none := by
    unfold reallocate_to vector_byte_size
    simp only
    rw [hw1, hw2, malloc_of_not_fails ha, hd]
    simp only
    rw [load_of_le (by omega)]
    simp only
    rw [hst]
  unfold vector_clear vector_resize
  rw [if_pos (Or.inr (by rw [Nat.zero_mul]; exact Nat.zero_le _)), hw0]
  unfold _vector_reallocate
  rw [if_pos (by omega), if_pos (by omega), hre]

/-- Claim C11 (failing input).  On sixteen one-byte elements in capacity 16
(well-formed, `malloc` not failing) `vector_resize(4)` meets the shrink test and
reallocates to `4 * 2 = 8` elements while `size` is still 16: `malloc(8)`
succeeds and the copy of the `size * element_size = 16` bytes overruns the new
8-byte block, so the call is undefined and leaves no vector of size 4 with the
elements kept.  Likewise `vector_clear()` on five elements in capacity 8 is
undefined and does not leave `size = 0`.  Where the old size fits the new
capacity the claimed results come out: `vector_clear()` on three elements leaves
`size = 0` and the minimum capacity, and `vector_resize(5)` on the sixteen
elements keeps the capacity. -/
theorem resize_shrink_overruns_new_block :
    (⟨16, 16, 1, some (List.range 16)⟩ : Vector).well_formed spec_config ∧
      vector_resize spec_config ⟨false, fun _ => 0⟩ ⟨16, 16, 1, some (List.range 16)⟩ 4 = none ∧
      malloc ⟨false, fun _ => 0⟩ (wrap (4 * spec_config.VECTOR_GROWTH_FACTOR * 1)) =
        some (List.replicate 8 0) ∧
      load (List.range 16) 0 (vector_byte_size ⟨16, 16, 1, some (List.range 16)⟩) =
        some (List.range 16) ∧
      store (List.replicate 8 0) 0 (List.range 16) = none ∧
      (⟨5, 8, 1, some [1, 2, 3, 4, 5, 6, 7, 8]⟩ : Vector).well_formed spec_config ∧
      vector_clear spec_config ⟨false, fun _ => 0⟩ ⟨5, 8, 1, some [1, 2, 3, 4, 5, 6, 7, 8]⟩ =
        none ∧
      vector_clear spec_config ⟨false, fun _ => 0⟩ ⟨3, 8, 1, some [1, 2, 3, 4, 5, 6, 7, 8]⟩ =
        some ⟨VECTOR_SUCCESS, ⟨0, 4, 1, some [1, 2, 3, 0]⟩, [4]⟩ ∧
      vector_resize spec_config ⟨false, fun _ => 0⟩ ⟨16, 16, 1, some (List.range 16)⟩ 5 =
        some ⟨VECTOR_SUCCESS, ⟨5, 16, 1, some (List.range 16)⟩, []⟩ := by
  decide

/-- Claim C12.  On a vector that is initialized and holds its elements, with
`capacity ≥ VECTOR_MINIMUM_CAPACITY`, a `vector_reserve(m)` that returns
`VECTOR_SUCCESS` leaves the capacity at `max old_capacity m` (so it never
shrinks) and keeps `size` and all elements; when `m ≤ capacity` it leaves the
whole vector as it was and allocates nothing. -/
theorem vector_reserve_never_shrinks (cfg : Config) (a : Alloc) (v : Vector) (m : Nat)
    (r : Outcome) (hv : v.holds_elements) (hmin : cfg.VECTOR_MINIMUM_CAPACITY ≤ v.capacity)
    (h : vector_reserve cfg a v m = some r) (hs : r.ret = VECTOR_SUCCESS) :
    r.vector.capacity = max v.capacity m ∧ r.vector.size = v.size ∧
      (∀ j, j < v.size → element_at r.vector j = element_at v j) ∧
      (m ≤ v.capacity → r.vector = v ∧ r.mallocs = []) := by
  unfold vector_reserve at h
  by_cases hm : m > v.capacity
  · rw [if_pos hm] at h
    cases hre : _vector_reallocate cfg a v m with
    | none => rw [hre] at h; exact absurd h (by simp)
    | some rr =>
      rw [hre] at h
      simp only at h
      by_cases he : rr.ret = VECTOR_ERROR
      · rw [if_pos he] at h
        rw [← Option.some.inj h] at hs
        exact absurd hs.symm success_ne_error
      · rw [if_neg he] at h
        obtain ⟨k1, k2⟩ := _vector_reallocate_keeps_elements hv hre he
        have hc := _vector_reallocate_capacity hre he hmin
        rw [← Option.some.inj h]
        refine ⟨?_, k1, k2, fun hle => absurd hle (by omega)⟩
        show rr.vector.capacity = max v.capacity m
        rw [hc, Nat.max_eq_left (by omega), Nat.max_eq_right (by omega)]
  · rw [if_neg hm] at h
    rw [← Option.some.inj h]
    have hmax : max v.capacity m = v.capacity := Nat.max_eq_left (by omega)
    exact ⟨hmax.symm, rfl, fun _ _ => rfl, fun _ => ⟨rfl, rfl⟩⟩

/-- Witness for C12: a reserve of 10 on capacity 8 reallocates to 10, a reserve
of 2 changes nothing. -/
theorem vector_reserve_never_shrinks_witness :
    vector_reserve spec_config ⟨false, fun _ => 0⟩ ⟨3, 8, 1, some [1, 2, 3, 4, 5, 6, 7, 8]⟩ 10 =
        some ⟨VECTOR_SUCCESS, ⟨3, 10, 1, some [1, 2, 3, 0, 0, 0, 0, 0, 0, 0]⟩, [10]⟩ ∧
      vector_reserve spec_config ⟨false, fun _ => 0⟩ ⟨3, 8, 1, some [1, 2, 3, 4, 5, 6, 7, 8]⟩ 2 =
        some ⟨VECTOR_SUCCESS, ⟨3, 8, 1, some [1, 2, 3, 4, 5, 6, 7, 8]⟩, []⟩ ∧
      (10 : Nat) = max 8 10 :=
  ⟨by decide, by decide,
    (vector_reserve_never_shrinks spec_config ⟨false, fun _ => 0⟩
      ⟨3, 8, 1, some [1, 2, 3, 4, 5, 6, 7, 8]⟩ 10
      ⟨VECTOR_SUCCESS, ⟨3, 10, 1, some [1, 2, 3, 0, 0, 0, 0, 0, 0, 0]⟩, [10]⟩
      (by decide) (by decide) (by decide) (by decide)).1⟩

/-- Claim C13.  On a vector that is initialized and holds its elements, with
`capacity ≥ VECTOR_MINIMUM_CAPACITY`, a `vector_shrink_to_fit()` that returns
`VECTOR_SUCCESS` leaves the capacity at `max size VECTOR_MINIMUM_CAPACITY` and
keeps `size` and all elements. -/
theorem vector_shrink_to_fit_capacity (cfg : Config) (a : Alloc) (v : Vector) (r : Outcome)
    (hv : v.holds_elements) (hmin : cfg.VECTOR_MINIMUM_CAPACITY ≤ v.capacity)
    (h : vector_shrink_to_fit cfg a v = some r) (hs : r.ret = VECTOR_SUCCESS) :
    r.vector.capacity = max v.size cfg.VECTOR_MINIMUM_CAPACITY ∧ r.vector.size = v.size ∧
      (∀ j, j < v.size → element_at r.vector j = element_at v j) := by
  unfold vector_shrink_to_fit at h
  have he : r.ret ≠ VECTOR_ERROR := by rw [hs]; exact success_ne_error
  obtain ⟨k1, k2⟩ := _vector_reallocate_keeps_elements hv h he
  exact ⟨_vector_reallocate_capacity h he hmin, k1, k2⟩

/-- Witness for C13: five elements in capacity 8 are fitted to capacity 5, three
elements to the minimum capacity 4. -/
theorem vector_shrink_to_fit_capacity_witness :
    vector_shrink_to_fit spec_config ⟨false, fun _ => 0⟩ ⟨5, 8, 1, some [1, 2, 3, 4, 5, 6, 7, 8]⟩ =
        some ⟨VECTOR_SUCCESS, ⟨5, 5, 1, some [1, 2, 3, 4, 5]⟩, [5]⟩ ∧
      vector_shrink_to_fit spec_config ⟨false, fun _ => 0⟩ ⟨3, 8, 1, some [1, 2, 3, 4, 5, 6, 7, 8]⟩ =
        some ⟨VECTOR_SUCCESS, ⟨3, 4, 1, some [1, 2, 3, 0]⟩, [4]⟩ ∧
      ((5 : Nat) = max 5 spec_config.VECTOR_MINIMUM_CAPACITY ∧ (5 : Nat) = 5 ∧
        ∀ j, j < 5 → element_at ⟨5, 5, 1, some [1, 2, 3, 4, 5]⟩ j =
          element_at ⟨5, 8, 1, some [1, 2, 3, 4, 5, 6, 7, 8]⟩ j) :=
  ⟨by decide, by decide,
    vector_shrink_to_fit_capacity spec_config ⟨false, fun _ => 0⟩
      ⟨5, 8, 1, some [1, 2, 3, 4, 5, 6, 7, 8]⟩
      ⟨VECTOR_SUCCESS, ⟨5, 5, 1, some [1, 2, 3, 4, 5]⟩, [5]⟩
      (by decide) (by decide) (by decide) (by decide)⟩

/-! ## C14: `vector_shrink_to_fit` twice -/

/-- Claim C14 (counterexample).  On five elements in capacity 8 the first
`vector_shrink_to_fit` allocates a block of 5 bytes, and the second one, on
the vector the first one left (`capacity == size == 5`), allocates a block of 5
bytes again: two reallocations. -/
theorem shrink_to_fit_twice_allocates_twice :
    vector_shrink_to_fit spec_config ⟨false, fun _ => 0⟩ ⟨5, 8, 1, some [1, 2, 3, 4, 5, 6, 7, 8]⟩ =
        some ⟨VECTOR_SUCCESS, ⟨5, 5, 1, some [1, 2, 3, 4, 5]⟩, [5]⟩ ∧
      vector_shrink_to_fit spec_config ⟨false, fun _ => 0⟩ ⟨5, 5, 1, some [1, 2, 3, 4, 5]⟩ =
        some ⟨VECTOR_SUCCESS, ⟨5, 5, 1, some [1, 2, 3, 4, 5]⟩, [5]⟩ := by
  decide

/-- A reallocation to the size of a vector whose block holds exactly its
elements allocates a block with the same bytes. -/
theorem reallocate_to_exact {a : Alloc} {w : Vector} {b : List Nat} (hd : w.data = some b)
    (hl : b.length = w.size * w.element_size) (hM : b.length < SIZE_MOD)
    (ha : a.fails = false) :
    reallocate_to a w w.size =
      some ⟨VECTOR_SUCCESS, { w with data := some b, capacity := w.size },
        [w.size * w.element_size]⟩ := by
  have hw : wrap (w.size * w.element_size) = w.size * w.element_size :=
    wrap_of_lt (by omega)
  have hfl : ((List.range (w.size * w.element_size)).map a.junk).length =
      w.size * w.element_size := by simp
  have hsrc : (b.drop 0).take (w.size * w.element_size) = b := by
    rw [List.drop_zero, ← hl, List.take_length]
  have hst : store ((List.range (w.size * w.element_size)).map a.junk) 0 b = some b := by
    rw [store_of_le _ _ _ (by rw [hfl]; omega)]
    congr 1
    rw [List.take_zero, List.nil_append, Nat.zero_add,
      List.drop_of_length_le (by rw [hfl]; omega), List.append_nil]
  unfold reallocate_to vector_byte_size
  simp only
  rw [hw, malloc_of_not_fails ha, hd]
  simp only
  rw [load_of_le (by omega), hsrc]
  simp only
  rw [hst]

/-- Claim C14 (amended).  On a vector that is initialized and holds its
elements, let two `vector_shrink_to_fit()` calls in succession both return
`VECTOR_SUCCESS`.  The second call leaves the vector (bytes, size, capacity) as
the first call left it.  It allocates nothing if and only if
`size < VECTOR_MINIMUM_CAPACITY`; when `size ≥ VECTOR_MINIMUM_CAPACITY` each of
the two calls allocates a block of `size * element_size` bytes. -/
theorem shrink_to_fit_again_keeps_state (cfg : Config) (a1 a2 : Alloc) (v : Vector) (r1 r2 : Outcome)
    (hv : v.holds_elements)
    (h1 : vector_shrink_to_fit cfg a1 v = some r1) (hs1 : r1.ret = VECTOR_SUCCESS)
    (h2 : vector_shrink_to_fit cfg a2 r1.vector = some r2) (hs2 : r2.ret = VECTOR_SUCCESS) :
    r2.vector = r1.vector ∧
      (r2.mallocs = [] ↔ v.size < cfg.VECTOR_MINIMUM_CAPACITY) ∧
      (cfg.VECTOR_MINIMUM_CAPACITY ≤ v.size →
        r1.mallocs = [v.size * v.element_size] ∧ r2.mallocs = [v.size * v.element_size]) := by
  obtain ⟨old, hd, hlen, hsz⟩ := holds_elements_iff.mp hv
  have he1 : r1.ret ≠ VECTOR_ERROR := by rw [hs1]; exact success_ne_error
  have he2 : r2.ret ≠ VECTOR_ERROR := by rw [hs2]; exact success_ne_error
  unfold vector_shrink_to_fit _vector_reallocate at h1
  by_cases hlt : v.size < cfg.VECTOR_MINIMUM_CAPACITY
  · rw [if_pos hlt] at h1
    have hnoop : ∀ w : Vector, w.size = v.size → w.capacity ≤ cfg.VECTOR_MINIMUM_CAPACITY →
        vector_shrink_to_fit cfg a2 w = some r2 → r2 = ⟨VECTOR_SUCCESS, w, []⟩ := by
      intro w hw1 hw2 hw
      unfold vector_shrink_to_fit _vector_reallocate at hw
      rw [if_pos (by omega), if_neg (by omega)] at hw
      exact (Option.some.inj hw).symm
    by_cases hc : v.capacity > cfg.VECTOR_MINIMUM_CAPACITY
    · rw [if_pos hc] at h1
      obtain ⟨_, blk, _, _, hr, _⟩ := reallocate_to_success h1 he1
      subst hr
      have := hnoop { v with data := some blk, capacity := cfg.VECTOR_MINIMUM_CAPACITY } rfl
        (Nat.le_refl _) h2
      subst this
      exact ⟨rfl, ⟨fun _ => hlt, fun _ => rfl⟩, fun hge => absurd hlt (by omega)⟩
    · rw [if_neg hc] at h1
      have hr1 : r1 = ⟨VECTOR_SUCCESS, v, []⟩ := (Option.some.inj h1).symm
      subst hr1
      have := hnoop v rfl (by omega) h2
      subst this
      exact ⟨rfl, ⟨fun _ => hlt, fun _ => rfl⟩, fun hge => absurd hlt (by omega)⟩
  · rw [if_neg hlt] at h1
    obtain ⟨old1, blk, hd1, _, hr, hbl, _⟩ := reallocate_to_success h1 he1
    have hw : wrap (v.size * v.element_size) = v.size * v.element_size :=
      wrap_of_lt (by omega)
    rw [hw] at hbl hr
    subst hr
    unfold vector_shrink_to_fit _vector_reallocate at h2
    simp only at h2
    rw [if_neg hlt] at h2
    obtain ⟨_, _, _, hfa, _⟩ := reallocate_to_success h2 he2
    have hex := reallocate_to_exact (a := a2)
      (w := { v with data := some blk, capacity := v.size }) (b := blk) rfl hbl (by omega) hfa
    simp only at hex
    rw [hex] at h2
    rw [← Option.some.inj h2]
    exact ⟨rfl, ⟨fun hx => absurd hx (by simp), fun hx => absurd hx hlt⟩, fun _ => ⟨rfl, rfl⟩⟩

/-- Witness for C14 (amended): the two calls of the counterexample, and two
calls on three elements, where the second one allocates nothing. -/
theorem shrink_to_fit_again_keeps_state_witness :
    vector_shrink_to_fit spec_config ⟨false, fun _ => 0⟩ ⟨3, 8, 1, some [1, 2, 3, 4, 5, 6, 7, 8]⟩ =
        some ⟨VECTOR_SUCCESS, ⟨3, 4, 1, some [1, 2, 3, 0]⟩, [4]⟩ ∧
      vector_shrink_to_fit spec_config ⟨false, fun _ => 0⟩ ⟨3, 4, 1, some [1, 2, 3, 0]⟩ =
        some ⟨VECTOR_SUCCESS, ⟨3, 4, 1, some [1, 2, 3, 0]⟩, []⟩ ∧
      ((⟨5, 5, 1, some [1, 2, 3, 4, 5]⟩ : Vector) = ⟨5, 5, 1, some [1, 2, 3, 4, 5]⟩ ∧
        ([5] = [] ↔ 5 < spec_config.VECTOR_MINIMUM_CAPACITY) ∧
        (spec_config.VECTOR_MINIMUM_CAPACITY ≤ 5 → [5] = [5 * 1] ∧ [5] = [5 * 1])) :=
  ⟨by decide, by decide,
    shrink_to_fit_again_keeps_state spec_config ⟨false, fun _ => 0⟩ ⟨false, fun _ => 0⟩
      ⟨5, 8, 1, some [1, 2, 3, 4, 5, 6, 7, 8]⟩
      ⟨VECTOR_SUCCESS, ⟨5, 5, 1, some [1, 2, 3, 4, 5]⟩, [5]⟩
      ⟨VECTOR_SUCCESS, ⟨5, 5, 1, some [1, 2, 3, 4, 5]⟩, [5]⟩
      (by decide) (by decide) (by decide) (by decide) (by decide)⟩

/-! ## C15, C16: iterators -/

/-- The iterator at a valid index of an initialized vector. -/
theorem vector_iterator_eq {v : Vector} {blk : List Nat} (hd : v.data = some blk)
    (he : 0 < v.element_size) (hno : v.size * v.element_size < SIZE_MOD) {k : Nat}
    (hk : k ≤ v.size) :
    vector_iterator v k = ⟨Pointer.slot (k * v.element_size), v.element_size⟩ := by
  have h1 : k * v.element_size ≤ v.size * v.element_size := Nat.mul_le_mul_right _ hk
  unfold vector_iterator
  rw [if_neg (by omega), if_neg (by omega), _vector_offset_eq hd (by omega)]

theorem vector_get_eq {v : Vector} {blk : List Nat} (hd : v.data = some blk)
    (he : 0 < v.element_size) (hno : v.size * v.element_size < SIZE_MOD) {k : Nat}
    (hk : k < v.size) : vector_get v k = Pointer.slot (k * v.element_size) := by
  have h1 : k * v.element_size ≤ v.size * v.element_size := Nat.mul_le_mul_right _ (by omega)
  unfold vector_get
  rw [if_neg (by omega), if_neg (by omega), _vector_offset_eq hd (by omega)]

/-- The traversal from the iterator at `k` to the end yields the lookups of the
indices `k, k + 1, ..., size - 1`. -/
theorem traverse_from {v : Vector} {blk : List Nat} (hd : v.data = some blk)
    (he : 0 < v.element_size) (hno : v.size * v.element_size < SIZE_MOD) :
    ∀ (d k fuel : Nat), k + d = v.size → d < fuel →
      traverse fuel (vector_iterator v k) (vector_end v) =
        some ((List.range' k d).map (vector_get v)) := by
  intro d
  induction d with
  | zero =>
    intro k fuel hk hf
    obtain ⟨f, rfl⟩ : ∃ f, fuel = f + 1 := ⟨fuel - 1, by omega⟩
    have hks : k = v.size := by omega
    subst hks
    unfold traverse vector_end iterator_equals
    simp
  | succ d ih =>
    intro k fuel hk hf
    obtain ⟨f, rfl⟩ : ∃ f, fuel = f + 1 := ⟨fuel - 1, by omega⟩
    have hlt : k < v.size := by omega
    have h1 : (k + 1) * v.element_size ≤ v.size * v.element_size :=
      Nat.mul_le_mul_right _ (by omega)
    have h2 : (k + 1) * v.element_size = k * v.element_size + v.element_size := by
      rw [Nat.add_mul, Nat.one_mul]
    have hne : k * v.element_size ≠ v.size * v.element_size := by omega
    have hnext : (iterator_next (vector_iterator v k)).2 = vector_iterator v (k + 1) := by
      rw [vector_iterator_eq hd he hno (show k ≤ v.size by omega),
        vector_iterator_eq hd he hno (show k + 1 ≤ v.size by omega)]
      unfold iterator_next iterator_increment
      simp only [Pointer.add]
      rw [wrap_of_lt (by omega), h2]
    have hret : (iterator_next (vector_iterator v k)).1 = vector_get v k := by
      rw [vector_iterator_eq hd he hno (show k ≤ v.size by omega), vector_get_eq hd he hno hlt]
      rfl
    have heq : iterator_equals (vector_iterator v k) (vector_end v) = false := by
      unfold vector_end
      rw [vector_iterator_eq hd he hno (show k ≤ v.size by omega),
        vector_iterator_eq hd he hno (Nat.le_refl _)]
      unfold iterator_equals
      simp [hne]
    unfold traverse
    rw [heq, hnext, hret, ih (k + 1) f (by omega) (by omega)]
    simp [List.range'_succ]

/-- Claim C15.  On an initialized vector with a non-zero element width (and
`size * element_size` a `size_t` value), the traversal that starts at
`vector_begin()` and calls `iterator_next` until the iterator equals
`vector_end()` ends, after exactly `size` calls, and its `k`-th call returns the
pointer that `vector_get(k)` returns; on an empty vector `vector_begin()` equals
`vector_end()` and nothing is yielded. -/
theorem traversal_yields_elements (v : Vector) (fuel : Nat)
    (hinit : vector_is_initialized v = true) (he : 0 < v.element_size)
    (hno : v.size * v.element_size < SIZE_MOD) (hf : v.size < fuel) :
    traverse fuel (vector_begin v) (vector_end v) =
        some ((List.range v.size).map (vector_get v)) ∧
      ((List.range v.size).map (vector_get v)).length = v.size ∧
      (v.size = 0 → vector_begin v = vector_end v ∧
        iterator_equals (vector_begin v) (vector_end v) = true ∧
        traverse fuel (vector_begin v) (vector_end v) = some []) := by
  unfold vector_is_initialized at hinit
  cases hd : v.data with
  | none => rw [hd] at hinit; exact absurd hinit (by simp)
  | some blk =>
    have main : traverse fuel (vector_begin v) (vector_end v) =
        some ((List.range v.size).map (vector_get v)) := by
      unfold vector_begin
      rw [traverse_from hd he hno v.size 0 fuel (by omega) hf, List.range_eq_range']
    refine ⟨main, by simp, ?_⟩
    intro h0
    have hbe : vector_begin v = vector_end v := by
      unfold vector_begin vector_end
      rw [h0]
    refine ⟨hbe, ?_, ?_⟩
    · rw [hbe]
      unfold iterator_equals
      simp
    · rw [main, h0]
      rfl

/-- Witness for C15: three two-byte elements are visited at the byte offsets 0,
2 and 4. -/
theorem traversal_yields_elements_witness :
    traverse 4 (vector_begin ⟨3, 4, 2, some [1, 2, 3, 4, 5, 6, 7, 8]⟩)
        (vector_end ⟨3, 4, 2, some [1, 2, 3, 4, 5, 6, 7, 8]⟩) =
      some [Pointer.slot 0, Pointer.slot 2, Pointer.slot 4] ∧
      traverse 4 (vector_begin ⟨3, 4, 2, some [1, 2, 3, 4, 5, 6, 7, 8]⟩)
        (vector_end ⟨3, 4, 2, some [1, 2, 3, 4, 5, 6, 7, 8]⟩) =
      some ((List.range 3).map (vector_get ⟨3, 4, 2, some [1, 2, 3, 4, 5, 6, 7, 8]⟩)) :=
  ⟨by decide,
    (traversal_yields_elements ⟨3, 4, 2, some [1, 2, 3, 4, 5, 6, 7, 8]⟩ 4
      (by decide) (by decide) (by decide) (by decide)).1⟩

theorem Pointer.add_data_ptr (v : Vector) {n : Nat} (hn : n < SIZE_MOD) :
    v.data_ptr.add (wrap n) =
      match v.data with
      | none => Pointer.addr n
      | some _ => Pointer.slot n := by
  unfold Vector.data_ptr
  cases v.data with
  | none => simp only [NULL, Pointer.add, Nat.zero_add, wrap_wrap, wrap_of_lt hn]
  | some b => simp only [Pointer.add, Nat.zero_add, wrap_wrap, wrap_of_lt hn]

/-- Claim C16.  For every vector and index `i`, `vector_iterator(i)` returns the
invalid iterator `{NULL, 0}` if and only if `i > size` or `element_size == 0`,
and otherwise the iterator with the pointer `data + i * element_size` and the
element width of the vector; `vector_begin()` is `vector_iterator(0)` and
`vector_end()` is `vector_iterator(size)`; and for a non-zero element width (with
`size * element_size` a `size_t` value) and `i, j ≤ size`, `iterator_equals`,
`iterator_is_before` and `iterator_is_after` of the iterators at `i` and `j`
hold exactly when `i = j`, `i < j` and `i > j`. -/
theorem vector_iterator_position (v : Vector) (i j : Nat) :
    (vector_iterator v i = ⟨NULL, 0⟩ ↔ (i > v.size ∨ v.element_size = 0)) ∧
      (¬ (i > v.size ∨ v.element_size = 0) →
        vector_iterator v i = ⟨v.data_ptr.add (wrap (i * v.element_size)), v.element_size⟩) ∧
      vector_begin v = vector_iterator v 0 ∧ vector_end v = vector_iterator v v.size ∧
      (v.element_size ≠ 0 → v.size * v.element_size < SIZE_MOD → i ≤ v.size → j ≤ v.size →
        iterator_equals (vector_iterator v i) (vector_iterator v j) = decide (i = j) ∧
          iterator_is_before (vector_iterator v i) (vector_iterator v j) =
            some (decide (i < j)) ∧
          iterator_is_after (vector_iterator v i) (vector_iterator v j) =
            some (decide (i > j))) := by
  have hval : ∀ k, ¬ (k > v.size ∨ v.element_size = 0) →
      vector_iterator v k = ⟨v.data_ptr.add (wrap (k * v.element_size)), v.element_size⟩ := by
    intro k hk
    unfold vector_iterator _vector_offset
    rw [if_neg (by omega), if_neg (by omega)]
  refine ⟨⟨?_, ?_⟩, hval i, rfl, rfl, ?_⟩
  · intro h
    by_contra hc
    rw [hval i hc] at h
    have := congrArg Iterator.element_size h
    simp only at this
    exact hc (Or.inr this)
  · intro hc
    unfold vector_iterator
    by_cases hi : i > v.size
    · rw [if_pos hi]
    · rw [if_neg hi, if_pos (by omega)]
  · intro he hno hi hj
    have hpos : 0 < v.element_size := by omega
    have h1 : i * v.element_size ≤ v.size * v.element_size := Nat.mul_le_mul_right _ hi
    have h2 : j * v.element_size ≤ v.size * v.element_size := Nat.mul_le_mul_right _ hj
    have e1 : (i * v.element_size = j * v.element_size) ↔ i = j :=
      ⟨fun h => Nat.eq_of_mul_eq_mul_right hpos h, fun h => by rw [h]⟩
    have e2 : (i * v.element_size < j * v.element_size) ↔ i < j :=
      ⟨fun h => Nat.lt_of_mul_lt_mul_right h, fun h => Nat.mul_lt_mul_of_pos_right h hpos⟩
    have e3 : (j * v.element_size < i * v.element_size) ↔ j < i :=
      ⟨fun h => Nat.lt_of_mul_lt_mul_right h, fun h => Nat.mul_lt_mul_of_pos_right h hpos⟩
    rw [hval i (by omega), hval j (by omega), Pointer.add_data_ptr v (by omega),
      Pointer.add_data_ptr v (by omega)]
    unfold iterator_equals iterator_is_before iterator_is_after
    cases v.data with
    | none =>
      simp only [Pointer.before, Pointer.addr.injEq, e1, e2, e3, gt_iff_lt]
      exact ⟨trivial, trivial, trivial⟩
    | some b =>
      simp only [Pointer.before, Pointer.slot.injEq, e1, e2, e3, gt_iff_lt]
      exact ⟨trivial, trivial, trivial⟩

/-- Witness for C16: on three two-byte elements the iterators at 1 and 3 are at
the byte offsets 2 and 6, the first is before the second, and the index 4 gives
the invalid iterator. -/
theorem vector_iterator_position_witness :
    vector_iterator ⟨3, 4, 2, some [1, 2, 3, 4, 5, 6, 7, 8]⟩ 1 = ⟨Pointer.slot 2, 2⟩ ∧
      vector_iterator ⟨3, 4, 2, some [1, 2, 3, 4, 5, 6, 7, 8]⟩ 3 = ⟨Pointer.slot 6, 2⟩ ∧
      vector_iterator ⟨3, 4, 2, some [1, 2, 3, 4, 5, 6, 7, 8]⟩ 4 = ⟨NULL, 0⟩ ∧
      (iterator_equals (vector_iterator ⟨3, 4, 2, some [1, 2, 3, 4, 5, 6, 7, 8]⟩ 1)
          (vector_iterator ⟨3, 4, 2, some [1, 2, 3, 4, 5, 6, 7, 8]⟩ 3) = decide (1 = 3) ∧
        iterator_is_before (vector_iterator ⟨3, 4, 2, some [1, 2, 3, 4, 5, 6, 7, 8]⟩ 1)
          (vector_iterator ⟨3, 4, 2, some [1, 2, 3, 4, 5, 6, 7, 8]⟩ 3) = some (decide (1 < 3)) ∧
        iterator_is_after (vector_iterator ⟨3, 4, 2, some [1, 2, 3, 4, 5, 6, 7, 8]⟩ 1)
          (vector_iterator ⟨3, 4, 2, some [1, 2, 3, 4, 5, 6, 7, 8]⟩ 3) = some (decide (1 > 3))) :=
  ⟨by decide, by decide, by decide,
    (vector_iterator_position ⟨3, 4, 2, some [1, 2, 3, 4, 5, 6, 7, 8]⟩ 1 3).2.2.2.2
      (by decide) (by decide) (by decide) (by decide)⟩

/-! ## C17: `vector_assign` -/

/-- Claim C17.  On a vector that is initialized and holds its elements, with a
non-zero element width, `vector_assign(i, x)` at an index `i < size` (with `x`
an element of `element_size` bytes) returns `VECTOR_SUCCESS` and overwrites in
place: afterwards the element at `i` is `x`, every other element below `size`
is unchanged, `size` and `capacity` are unchanged and nothing was allocated. -/
theorem vector_assign_overwrites (v : Vector) (i : Nat) (x : List Nat)
    (hv : v.holds_elements) (he : 0 < v.element_size) (hi : i < v.size)
    (hx : v.element_size ≤ x.length) :
    ∃ r, vector_assign v i (some x) = some r ∧ r.ret = VECTOR_SUCCESS ∧ r.mallocs = [] ∧
      r.vector.size = v.size ∧ r.vector.capacity = v.capacity ∧
      r.vector.element_size = v.element_size ∧
      element_at r.vector i = some (x.take v.element_size) ∧
      (∀ j, j ≠ i → j < v.size → element_at r.vector j = element_at v j) := by
  obtain ⟨blk, hd, hlen, hsz⟩ := holds_elements_iff.mp hv
  have hA := mul_le_of_lt_size hsz hi
  have hxl : (x.take v.element_size).length = v.element_size := by
    rw [List.length_take]; omega
  have hst := store_of_le blk (x.take v.element_size) (i * v.element_size)
    (by rw [hxl]; omega)
  rw [hxl] at hst
  have hl := length_of_store hst
  have hnew : ∀ j, j < v.size →
      element_at { v with data := some (blk.take (i * v.element_size) ++ x.take v.element_size ++
          blk.drop (i * v.element_size + v.element_size)) } j =
        load (blk.take (i * v.element_size) ++ x.take v.element_size ++
          blk.drop (i * v.element_size + v.element_size))
          (j * v.element_size) v.element_size := fun j hj =>
    element_at_eq_load (v := { v with data := some _ }) rfl (by rw [hl]; omega)
      (by rw [hl]; exact hsz) he hj
  refine ⟨⟨VECTOR_SUCCESS, { v with data := some (blk.take (i * v.element_size) ++
    x.take v.element_size ++ blk.drop (i * v.element_size + v.element_size)) },
    []⟩, ?_, rfl, rfl, rfl, rfl, rfl, ?_, ?_⟩
  · unfold vector_assign _vector_assign Vector.memcpy_in
    rw [if_neg (by simp), if_neg (by omega), if_neg (by omega)]
    simp only
    rw [_vector_offset_eq hd (by omega), if_pos hx, write_slot hd, hst]
    rfl
  · show element_at { v with data := some _ } i = _
    rw [hnew i hi]
    have := load_store_same hst
    rw [hxl] at this
    exact this
  · intro j hji hj
    show element_at { v with data := some _ } j = _
    rw [hnew j hj, element_at_eq_load hd hlen hsz he hj]
    apply load_store_disjoint hst
    rw [hxl]
    by_cases hlt : j < i
    · exact Or.inl (mul_le_of_lt_size (Nat.le_refl (i * v.element_size)) hlt)
    · have : i < j := by omega
      exact Or.inr (mul_le_of_lt_size (Nat.le_refl (j * v.element_size)) this)

/-- Witness for C17: the assignment of 9 at index 1 of `[1, 2, 3]`. -/
theorem vector_assign_overwrites_witness :
    vector_assign ⟨3, 4, 1, some [1, 2, 3, 4]⟩ 1 (some [9]) =
        some ⟨VECTOR_SUCCESS, ⟨3, 4, 1, some [1, 9, 3, 4]⟩, []⟩ ∧
      ∃ r, vector_assign ⟨3, 4, 1, some [1, 2, 3, 4]⟩ 1 (some [9]) = some r ∧
        r.ret = VECTOR_SUCCESS ∧ r.mallocs = [] ∧ r.vector.size = 3 ∧ r.vector.capacity = 4 ∧
        r.vector.element_size = 1 ∧ element_at r.vector 1 = some [9] ∧
        (∀ j, j ≠ 1 → j < 3 → element_at r.vector j = element_at ⟨3, 4, 1, some [1, 2, 3, 4]⟩ j) :=
  ⟨by decide,
    vector_assign_overwrites ⟨3, 4, 1, some [1, 2, 3, 4]⟩ 1 [9]
      (by decide) (by decide) (by decide) (by decide)⟩

/-! ## C18: `vector_pop_back` on an empty vector -/

/-- Claim C18 (failing input).  `vector_pop_back` on an empty vector of four-byte
elements returns `VECTOR_SUCCESS`, not `VECTOR_ERROR`, and leaves `size` at
`SIZE_MAX` instead of 0; the sibling `vector_remove(0)` on the same vector
returns `VECTOR_ERROR` and leaves it unchanged. -/
theorem pop_back_on_empty_reports_success :
    vector_pop_back spec_config ⟨false, fun _ => 0⟩ ⟨0, 4, 4, some (List.replicate 16 0)⟩ =
        some ⟨VECTOR_SUCCESS, ⟨18446744073709551615, 4, 4, some (List.replicate 16 0)⟩, []⟩ ∧
      vector_remove spec_config ⟨false, fun _ => 0⟩ ⟨0, 4, 4, some (List.replicate 16 0)⟩ 0 =
        some ⟨VECTOR_ERROR, ⟨0, 4, 4, some (List.replicate 16 0)⟩, []⟩ := by
  decide

/-! ## C19: `vector_destroy` -/

/-- Claim C19 (failing input).  `vector_destroy` on an initialized vector returns
`VECTOR_SUCCESS` and releases the block, but leaves `data` as it is:
`vector_is_initialized` is still true, a second `vector_destroy` does not return
`VECTOR_ERROR` but frees the released block again (undefined), and a new
`vector_setup` on the vector is refused with `VECTOR_ERROR`.  On a vector that
is not initialized `vector_destroy` returns `VECTOR_ERROR`. -/
theorem destroy_leaves_vector_initialized :
    vector_destroy ⟨3, 4, 1, some [1, 2, 3, 4]⟩ true =
        some (⟨VECTOR_SUCCESS, ⟨3, 4, 1, some [1, 2, 3, 4]⟩, []⟩, false) ∧
      vector_is_initialized ⟨3, 4, 1, some [1, 2, 3, 4]⟩ = true ∧
      vector_destroy ⟨3, 4, 1, some [1, 2, 3, 4]⟩ false = none ∧
      vector_setup spec_config ⟨false, fun _ => 0⟩ ⟨3, 4, 1, some [1, 2, 3, 4]⟩ 4 1 =
        some ⟨VECTOR_ERROR, ⟨3, 4, 1, some [1, 2, 3, 4]⟩, []⟩ ∧
      vector_destroy ⟨0, 0, 0, none⟩ false = some (⟨VECTOR_ERROR, ⟨0, 0, 0, none⟩, []⟩, false) := by
  decide

/-! ## C20: the copy step of `_vector_reallocate` -/

/-- Claim C20 (failing input).  On a full vector of eight one-byte elements
(`size = capacity = 8`, minimum capacity 4) `vector_clear()`, like
`vector_resize(1)`, reallocates while `size` is still 8: the new block has
`4 * 1` bytes, the copy step reads the `size * element_size = 8` bytes of the old
block and writing them into the new block overruns it, so the call is
undefined. -/
theorem clear_copies_more_than_the_new_block_holds :
    vector_clear spec_config ⟨false, fun _ => 0⟩ ⟨8, 8, 1, some [1, 2, 3, 4, 5, 6, 7, 8]⟩ = none ∧
      vector_resize spec_config ⟨false, fun _ => 0⟩ ⟨8, 8, 1, some [1, 2, 3, 4, 5, 6, 7, 8]⟩ 1 =
        none ∧
      malloc ⟨false, fun _ => 0⟩ (wrap (spec_config.VECTOR_MINIMUM_CAPACITY * 1)) =
        some [0, 0, 0, 0] ∧
      load [1, 2, 3, 4, 5, 6, 7, 8] 0 (vector_byte_size ⟨8, 8, 1, some [1, 2, 3, 4, 5, 6, 7, 8]⟩) =
        some [1, 2, 3, 4, 5, 6, 7, 8] ∧
      store [0, 0, 0, 0] 0 [1, 2, 3, 4, 5, 6, 7, 8] = none ∧
      (⟨8, 8, 1, some [1, 2, 3, 4, 5, 6, 7, 8]⟩ : Vector).well_formed spec_config := by
  decide

end VectorC
